import Mathlib

/-!
Verification of the AIO-OCIO updater add-on against its specification.

The add-on is a single Python module.  This file gives a shallow embedding of
the parts the claims are about:

* `get_releases_api_url` — the pure string transformation turning a GitHub
  repository URL into the releases API endpoint (source lines 44–59);
* `get_latest_release_info` — the release-metadata fetch, modelled over an
  abstract HTTP outcome (source lines 127–146);
* `download_with_progress` — the chunked downloader with its progress
  callback sequence, modelled over an abstract response (lines 149–185);
* `download_and_install` — the worker's install state machine, modelled as a
  function from an environment of external outcomes and an abstract
  filesystem state to a result carrying the final state, a trace of the
  performed operations, and the success/error outcome (lines 248–362);
* `execute` — the operator entry point with its busy-flag guard
  (lines 386–414).

Strings are Lean `String`s (logically lists of characters); fractional
progress values are rationals; machine reads/writes of the shared progress
scalars are modelled as plain record updates (the source relies on
last-write-wins scalar semantics).
-/

/-! ## The release-URL resolver (source lines 44–59) -/

/-- The marker searched for inside repository URLs (Python `'github.com/'`). -/
def ghMarker : List Char := ['g', 'i', 't', 'h', 'u', 'b', '.', 'c', 'o', 'm', '/']

/-- Python `s.rstrip('/')` on the character list `s`: remove every trailing
occurrence of `c`. -/
def rstrip (c : Char) (s : List Char) : List Char :=
  ((s.reverse).dropWhile (fun x => x == c)).reverse

/-- Python `s in t` (substring containment) specialised to the marker:
scans every suffix for the marker as a prefix. -/
def hasMarker : List Char → Bool
  | [] => false
  | c :: rest => ghMarker.isPrefixOf (c :: rest) || hasMarker rest

/-- The last field of the left-to-right non-overlapping split of `s` on the
marker, with explicit fuel (each step consumes at least one character, so
`s.length` fuel suffices).  This is Python `s.split('github.com/')[-1]`:
`cur` holds the reversed characters of the field currently being scanned,
and the field is reset each time the marker is consumed. -/
def splitTailAux : Nat → List Char → List Char → List Char
  | 0, s, cur => cur.reverse ++ s
  | fuel + 1, s, cur =>
    match s with
    | [] => cur.reverse
    | c :: rest =>
      if ghMarker.isPrefixOf (c :: rest) then
        splitTailAux fuel ((c :: rest).drop ghMarker.length) []
      else
        splitTailAux fuel rest (c :: cur)

/-- Python `s.split('github.com/')[-1]`. -/
def splitTail (s : List Char) : List Char :=
  splitTailAux (s.length + 1) s []

/-- `get_releases_api_url` (source lines 44–59): strip trailing slashes; if
the marker `'github.com/'` occurs, substitute the part after its last
occurrence into the API endpoint template; otherwise fall back to returning
the (stripped) input unchanged. -/
def get_releases_api_url (repo_url : String) : String :=
  let stripped := rstrip '/' repo_url.data
  if hasMarker stripped then
    ⟨"https://api.github.com/repos/".data ++ splitTail stripped ++ "/releases/latest".data⟩
  else
    ⟨stripped⟩

example : get_releases_api_url "https://github.com/RolandVyens/AIO-OCIO"
    = "https://api.github.com/repos/RolandVyens/AIO-OCIO/releases/latest" := by decide

example : get_releases_api_url "https://github.com/RolandVyens/AIO-OCIO//"
    = "https://api.github.com/repos/RolandVyens/AIO-OCIO/releases/latest" := by decide

example : get_releases_api_url "notaurl" = "notaurl" := by decide

/-! ### Lemmas about the resolver's string scanning -/

theorem isPrefixOf_eq_true_iff {l₁ l₂ : List Char} : l₁.isPrefixOf l₂ = true ↔ l₁ <+: l₂ :=
  List.isPrefixOf_iff_prefix

theorem ghMarker_isPrefixOf_head_false {c : Char} (l : List Char) (h : c ≠ 'g') :
    ghMarker.isPrefixOf (c :: l) = false := by
  have hbeq : (('g' : Char) == c) = false := beq_eq_false_iff_ne.mpr (fun hgc => h hgc.symm)
  show List.isPrefixOf ('g' :: ['i', 't', 'h', 'u', 'b', '.', 'c', 'o', 'm', '/']) (c :: l) = false
  simp [List.isPrefixOf, hbeq]

theorem rstrip_append_replicate (x : List Char) (k : Nat) :
    rstrip '/' (x ++ List.replicate k '/') = rstrip '/' x := by
  unfold rstrip
  rw [List.reverse_append, List.reverse_replicate]
  congr 1
  induction k with
  | zero => simp
  | succ n ih => simp [List.replicate_succ, List.dropWhile_cons, ih]

theorem rstrip_eq_self_of_getLast (s : List Char) (c : Char)
    (h : s.getLast? = some c) (hc : c ≠ '/') : rstrip '/' s = s := by
  unfold rstrip
  have hh : s.reverse.head? = some c := by rw [List.head?_reverse, h]
  cases hrev : s.reverse with
  | nil => rw [hrev] at hh; simp at hh
  | cons a r =>
    rw [hrev] at hh
    have ha : a = c := by simpa using hh
    subst ha
    have hbeq : (a == '/') = false := by simpa using hc
    rw [List.dropWhile_cons, hbeq]
    simp only [Bool.false_eq_true, if_false]
    rw [← hrev, List.reverse_reverse]

theorem hasMarker_start (t : List Char) : hasMarker (ghMarker ++ t) = true := by
  show hasMarker ('g' :: (['i', 't', 'h', 'u', 'b', '.', 'c', 'o', 'm', '/'] ++ t)) = true
  unfold hasMarker
  simp only [Bool.or_eq_true]
  exact Or.inl (isPrefixOf_eq_true_iff.mpr (List.prefix_append ghMarker t))

theorem hasMarker_of_append (a s : List Char) (h : hasMarker s = true) :
    hasMarker (a ++ s) = true := by
  induction a with
  | nil => simpa using h
  | cons c a' ih =>
    show hasMarker (c :: (a' ++ s)) = true
    unfold hasMarker
    simpa using Or.inr ih

theorem splitTailAux_cons_neg (fuel : Nat) (c : Char) (rest cur : List Char)
    (h : ghMarker.isPrefixOf (c :: rest) = false) :
    splitTailAux (fuel + 1) (c :: rest) cur = splitTailAux fuel rest (c :: cur) := by
  simp [splitTailAux, h]

theorem splitTailAux_skip (a : List Char) (s cur : List Char) (fuel : Nat)
    (hf : a.length ≤ fuel)
    (h : ∀ t, t <:+ a → t ≠ [] → ghMarker.isPrefixOf (t ++ s) = false) :
    splitTailAux fuel (a ++ s) cur = splitTailAux (fuel - a.length) s (a.reverse ++ cur) := by
  induction a generalizing cur fuel with
  | nil => simp
  | cons c a' ih =>
    cases fuel with
    | zero => simp at hf
    | succ f =>
      have hstep : ghMarker.isPrefixOf ((c :: a') ++ s) = false :=
        h (c :: a') (List.suffix_refl _) (List.cons_ne_nil _ _)
      rw [show (c :: a') ++ s = c :: (a' ++ s) from rfl] at hstep ⊢
      rw [splitTailAux_cons_neg f c (a' ++ s) cur hstep]
      rw [ih (c :: cur) f (by simpa using Nat.lt_succ_iff.mp (Nat.lt_of_lt_of_le (Nat.lt_succ_self _) (by simpa using hf)))
        (fun t ht hne => h t (ht.trans (List.suffix_cons c a')) hne)]
      simp [Nat.succ_sub_succ]

theorem splitTailAux_marker (t cur : List Char) (fuel : Nat) (hf : 1 ≤ fuel) :
    splitTailAux fuel (ghMarker ++ t) cur = splitTailAux (fuel - 1) t [] := by
  cases fuel with
  | zero => simp at hf
  | succ f =>
    have hpre : ghMarker.isPrefixOf (ghMarker ++ t) = true :=
      isPrefixOf_eq_true_iff.mpr (List.prefix_append _ _)
    show splitTailAux (f + 1) ('g' :: (['i', 't', 'h', 'u', 'b', '.', 'c', 'o', 'm', '/'] ++ t)) cur
        = splitTailAux f t []
    rw [show ('g' : Char) :: (['i', 't', 'h', 'u', 'b', '.', 'c', 'o', 'm', '/'] ++ t) = ghMarker ++ t from rfl]
    simp only [splitTailAux]
    rw [show ghMarker ++ t = 'g' :: (['i', 't', 'h', 'u', 'b', '.', 'c', 'o', 'm', '/'] ++ t) from rfl]
    simp only []
    rw [show ('g' : Char) :: (['i', 't', 'h', 'u', 'b', '.', 'c', 'o', 'm', '/'] ++ t) = ghMarker ++ t from rfl, hpre]
    simp [List.drop_left]

theorem splitTailAux_no_occ (s : List Char) : ∀ (fuel : Nat) (cur : List Char), s.length ≤ fuel →
    (∀ t, t <:+ s → ghMarker.isPrefixOf t = false) →
    splitTailAux fuel s cur = cur.reverse ++ s := by
  induction s with
  | nil =>
    intro fuel cur _ _
    cases fuel <;> simp [splitTailAux]
  | cons c rest ih =>
    intro fuel cur hf h
    cases fuel with
    | zero => simp at hf
    | succ f =>
      rw [splitTailAux_cons_neg f c rest cur (h (c :: rest) (List.suffix_refl _))]
      rw [ih f (c :: cur) (by simpa using hf)
        (fun t ht => h t (ht.trans (List.suffix_cons c rest)))]
      simp

theorem append_eq_append_of_not_mem {α : Type _} {x : α} :
    ∀ (A C B D : List α), x ∉ A → x ∉ C → A ++ x :: B = C ++ x :: D → A = C ∧ B = D := by
  intro A
  induction A with
  | nil =>
    intro C B D _ hC h
    cases C with
    | nil => simpa using h
    | cons c C' =>
      exfalso
      have : x = c := by simpa using congrArg (List.head? ·) h
      exact hC (this ▸ List.mem_cons_self c C')
  | cons a A' ih =>
    intro C B D hA hC h
    cases C with
    | nil =>
      exfalso
      have : a = x := by simpa using congrArg (List.head? ·) h
      exact hA (this ▸ List.mem_cons_self a A')
    | cons c C' =>
      have hhead : a = c := by simpa using congrArg (List.head? ·) h
      have htail : A' ++ x :: B = C' ++ x :: D := by simpa using congrArg List.tail h
      obtain ⟨h1, h2⟩ := ih C' B D (fun hm => hA (List.mem_cons_of_mem a hm))
        (fun hm => hC (List.mem_cons_of_mem c hm)) htail
      exact ⟨by rw [hhead, h1], h2⟩

theorem noMarkerOcc (owner repo : List Char)
    (ho : '/' ∉ owner) (hr : '/' ∉ repo)
    (hsuf : ¬ ("github.com".data <:+ owner)) :
    ∀ t, t <:+ (owner ++ '/' :: repo) → ghMarker.isPrefixOf t = false := by
  intro t ht
  cases hb : ghMarker.isPrefixOf t with
  | false => rfl
  | true =>
    exfalso
    obtain ⟨r, hrEq⟩ := isPrefixOf_eq_true_iff.mp hb
    obtain ⟨u, huEq⟩ := ht
    rw [← hrEq] at huEq
    have hgh : ghMarker = "github.com".data ++ ['/'] := by decide
    have hre : (u ++ "github.com".data) ++ '/' :: r = owner ++ '/' :: repo := by
      rw [hgh] at huEq
      simpa [List.append_assoc] using huEq
    have hcount := congrArg (List.count '/') hre
    have hg0 : List.count '/' "github.com".data = 0 := by decide
    simp [List.count_append, List.count_cons, hg0,
      List.count_eq_zero.mpr ho, List.count_eq_zero.mpr hr] at hcount
    have hu0 : '/' ∉ u := List.count_eq_zero.mp (by omega)
    have hnotA : '/' ∉ u ++ "github.com".data := by
      simp only [List.mem_append]
      rintro (h | h)
      · exact hu0 h
      · exact absurd h (by decide)
    obtain ⟨hA, _⟩ := append_eq_append_of_not_mem (u ++ "github.com".data) owner r repo hnotA ho hre
    exact hsuf ⟨u, hA⟩

theorem stripped_repo_url (owner repo : List Char) (k : Nat)
    (hr : '/' ∉ repo) (hrne : repo ≠ []) :
    rstrip '/' ("https://github.com/".data ++ (owner ++ '/' :: repo) ++ List.replicate k '/')
      = "https://github.com/".data ++ (owner ++ '/' :: repo) := by
  rw [rstrip_append_replicate]
  obtain ⟨c, hL⟩ : ∃ c, repo.getLast? = some c := by
    cases hL : repo.getLast? with
    | none => exact absurd (List.getLast?_eq_none_iff.mp hL) hrne
    | some c => exact ⟨c, rfl⟩
  have hcne : c ≠ '/' := fun hEq => hr (hEq ▸ List.mem_of_getLast?_eq_some hL)
  apply rstrip_eq_self_of_getLast _ c _ hcne
  obtain ⟨ys, hys⟩ := List.getLast?_eq_some_iff.mp hL
  rw [hys]
  rw [show "https://github.com/".data ++ (owner ++ '/' :: (ys ++ [c]))
      = ("https://github.com/".data ++ (owner ++ '/' :: ys)) ++ [c] by simp]
  exact List.getLast?_concat _

theorem splitTail_repo_url (owner repo : List Char)
    (ho : '/' ∉ owner) (hr : '/' ∉ repo)
    (hsuf : ¬ ("github.com".data <:+ owner)) :
    splitTail ("https://github.com/".data ++ (owner ++ '/' :: repo))
      = owner ++ '/' :: repo := by
  have hsplit : "https://github.com/".data = "https://".data ++ ghMarker := by decide
  unfold splitTail
  rw [hsplit, List.append_assoc]
  rw [splitTailAux_skip "https://".data _ [] _
    (by rw [List.length_append]; omega)
    (by
      intro t ht hne
      cases t with
      | nil => exact absurd rfl hne
      | cons c t' =>
        have hcmem : c ∈ "https://".data := ht.subset (List.mem_cons_self c t')
        exact ghMarker_isPrefixOf_head_false _
          (fun hEq => absurd (hEq ▸ hcmem) (by decide)))]
  rw [splitTailAux_marker _ _ _ (by rw [List.length_append]; omega)]
  rw [splitTailAux_no_occ _ _ _
    (by
      have h8 : ("https://".data).length = 8 := by decide
      have h11 : ghMarker.length = 11 := by decide
      simp only [List.length_append]
      omega)
    (noMarkerOcc owner repo ho hr hsuf)]
  simp

theorem get_releases_api_url_of_marker (u : String)
    (hm : hasMarker (rstrip '/' u.data) = true) :
    get_releases_api_url u
      = ⟨"https://api.github.com/repos/".data ++ splitTail (rstrip '/' u.data)
          ++ "/releases/latest".data⟩ := by
  simp only [get_releases_api_url]
  simp [hm]

/-- C1: for every GitHub repository URL `https://github.com/OWNER/REPO`
(OWNER and REPO slash-free path segments, REPO nonempty, OWNER not ending in
the text `github.com`), possibly with trailing slashes, the resolver is a
pure string transformation returning
`https://api.github.com/repos/OWNER/REPO/releases/latest`, the trailing
slashes being stripped before the transformation. -/
theorem c1_resolver_github_url (owner repo : List Char) (k : Nat)
    (ho : '/' ∉ owner) (hr : '/' ∉ repo) (hrne : repo ≠ [])
    (hsuf : ¬ ("github.com".data <:+ owner)) :
    get_releases_api_url ⟨"https://github.com/".data ++ (owner ++ '/' :: repo) ++ List.replicate k '/'⟩
      = ⟨"https://api.github.com/repos/".data ++ (owner ++ '/' :: repo) ++ "/releases/latest".data⟩ := by
  have hstr : rstrip '/' (String.data ⟨"https://github.com/".data ++ (owner ++ '/' :: repo) ++ List.replicate k '/'⟩)
      = "https://github.com/".data ++ (owner ++ '/' :: repo) :=
    stripped_repo_url owner repo k hr hrne
  have hm : hasMarker (rstrip '/' (String.data ⟨"https://github.com/".data ++ (owner ++ '/' :: repo) ++ List.replicate k '/'⟩)) = true := by
    rw [hstr]
    rw [show "https://github.com/".data = "https://".data ++ ghMarker from by decide,
      List.append_assoc]
    exact hasMarker_of_append _ _ (hasMarker_start _)
  rw [get_releases_api_url_of_marker _ hm, hstr, splitTail_repo_url owner repo ho hr hsuf]

theorem c1_resolver_github_url_witness :
    ('/' ∉ "RolandVyens".data) ∧ ('/' ∉ "AIO-OCIO".data) ∧ "AIO-OCIO".data ≠ [] ∧
    ¬ ("github.com".data <:+ "RolandVyens".data) ∧
    get_releases_api_url ⟨"https://github.com/".data ++ ("RolandVyens".data ++ '/' :: "AIO-OCIO".data) ++ List.replicate 1 '/'⟩
      = ⟨"https://api.github.com/repos/".data ++ ("RolandVyens".data ++ '/' :: "AIO-OCIO".data) ++ "/releases/latest".data⟩ :=
  ⟨by decide, by decide, by decide, by decide,
   c1_resolver_github_url "RolandVyens".data "AIO-OCIO".data 1
     (by decide) (by decide) (by decide) (by decide)⟩

/-! ## The release-metadata fetch (source lines 127–146) -/

/-- Fields of the release record produced by `get_latest_release_info`. -/
structure ReleaseInfo where
  tag_name : String
  published_at : String
  zipball_url : String
  display_name : String
deriving DecidableEq

/-- Outcome of the HTTP GET against the releases endpoint: either the request
raised (unreachable host, timeout, non-success status — `urllib` raises on
4xx/5xx — or an unparsable body), or it returned a parsed JSON object whose
four relevant keys may each be missing. -/
inductive HttpOutcome where
  | failure (err : String)
  | ok (tag published zipball nm : Option String)

/-- `get_latest_release_info` (source lines 127–146): on any exception the
function returns `None`; otherwise it builds the record with `dict.get`
defaults of the empty string. -/
def get_latest_release_info : HttpOutcome → Option ReleaseInfo
  | .failure _ => none
  | .ok t p z n => some ⟨t.getD "", p.getD "", z.getD "", n.getD ""⟩

/-! ## The downloader (source lines 149–185) -/

/-- Abstracted HTTP response for the zipball download: the declared
`Content-Length` (as parsed by Python `int`, `none` for an absent or falsy
header), the sizes of the successful `read(8192)` chunks, and whether an
exception terminated the transfer after those chunks (`some e` carries
Python `str(e)`). -/
structure DownloadResp where
  contentLength : Option Int
  chunks : List Nat
  failAfter : Option String

/-- Cumulative byte counts after each chunk (the successive values of the
`downloaded` counter at the callback sites). -/
def cumBytes (acc : Nat) : List Nat → List Nat
  | [] => []
  | c :: rest => (acc + c) :: cumBytes (acc + c) rest

/-- The fraction computed at source lines 176–179: `downloaded / total_size`
when a positive total is known, the 0.5 sentinel otherwise. -/
def fractionOf (total : Int) (downloaded : Nat) : ℚ :=
  if 0 < total then (downloaded : ℚ) / (total : ℚ) else 1 / 2

/-- The status text passed to the callback (source line 181). -/
def dlStatus (downloaded : Nat) : String :=
  "Downloading... " ++ toString (downloaded / 1024) ++ " KB"

/-- `download_with_progress` (source lines 149–185): returns the
`(success, error-text)` pair together with the list of
`(fraction, status)` arguments of the successive progress-callback
invocations. -/
def download_with_progress (resp : DownloadResp) :
    (Bool × String) × List (ℚ × String) :=
  let total := resp.contentLength.getD 0
  let updates := (cumBytes 0 resp.chunks).map
    (fun dcur => (fractionOf total dcur, dlStatus dcur))
  match resp.failAfter with
  | some e => ((false, e), updates)
  | none => ((true, ""), updates)

/-! ## The install worker (source lines 248–362)

The relevant filesystem state is abstracted to the install target directory
(`cm_path`), the backup directory (`cm_path + "_backup"`), the existence of
the parent directory, and the number of live scratch temp directories.  A
directory's contents are a map from (top-level) file name to file contents.
Every externally determined outcome — the configured repository URL, the
HTTP responses, whether the zip is corrupt, the `os.listdir` result of the
extraction directory, and which filesystem calls raise — is a field of the
environment `Env`.  The worker records every performed operation in a
trace; `applyOp` is the filesystem semantics of one operation. -/

/-- Directory contents: file name to file contents. -/
def Dirc : Type := String → Option String

/-- Pointwise update of directory contents. -/
def dirSet (d : Dirc) (n : String) (v : Option String) : Dirc :=
  fun m => if m = n then v else d m

/-- `VERSION_FILE` (source line 34). -/
def VERSION_FILE : String := ".aio_ocio_version.json"

/-- The serialized version record written by `save_version_info`
(source lines 108–124); the exact JSON shape is irrelevant to the claims,
only which file is written and that it is a function of these fields. -/
def encodeVersion (tag pub inst srcName : String) : String :=
  tag ++ "|" ++ pub ++ "|" ++ inst ++ "|" ++ srcName

/-- Abstract filesystem state. -/
structure FS where
  cm : Option Dirc
  backup : Option Dirc
  parentExists : Bool
  tempCount : Nat

/-- Operations the worker performs, in the order it performs them. -/
inductive Op where
  | updateProgress (p : ℚ) (st : String)
  | mkdtemp
  | makedirs
  | rmtreeBackup
  | moveCmToBackup
  | copytreeToCm (d : Dirc)
  | copytreeFailedPartial (r : Option Dirc)
  | removeConfigDest
  | copyConfig (c : String)
  | saveVersion (content : String)
  | rmtreeTemp

/-- Filesystem semantics of one operation.  `moveCmToBackup` is
`shutil.move`: the install target ceases to exist and the backup holds
exactly its former contents. -/
def applyOp (s : FS) : Op → FS
  | .updateProgress _ _ => s
  | .mkdtemp => { s with tempCount := s.tempCount + 1 }
  | .makedirs => { s with parentExists := true }
  | .rmtreeBackup => { s with backup := none }
  | .moveCmToBackup => { s with backup := s.cm, cm := none }
  | .copytreeToCm d => { s with cm := some d }
  | .copytreeFailedPartial r => { s with cm := r }
  | .removeConfigDest => { s with cm := s.cm.map (fun d => dirSet d "config.ocio" none) }
  | .copyConfig c => { s with cm := s.cm.map (fun d => dirSet d "config.ocio" (some c)) }
  | .saveVersion content => { s with cm := s.cm.map (fun d => dirSet d VERSION_FILE (some content)) }
  | .rmtreeTemp => { s with tempCount := s.tempCount - 1 }

/-- Environment of externally determined outcomes for one run.  An error
field of `some e` means the corresponding library call raises an exception
whose `str` is `e`; `none` means it succeeds. -/
structure Env where
  repoUrl : String
  http : String → HttpOutcome
  download : String → DownloadResp
  zipErr : Option String
  entries : List Dirc
  makedirsErr : Option String
  rmtreeBackupErr : Option String
  moveErr : Option String
  copytreeErr : Option String
  partialCm : Option Dirc
  removeConfigErr : Option String
  copyConfigErr : Option String
  versionWriteFail : Bool
  nowIso : String
  sourceName : String
  cleanupFail : Bool

/-- Result of the `try` body of `download_and_install` (before the
`finally` cleanup). -/
structure BodyResult where
  fs : FS
  trace : List Op
  tempCreated : Bool
  success : Bool
  errorMsg : String

/-- Version save and final milestone (source lines 338–349).  A failing
version write is swallowed (`save_version_info` catches everything). -/
def versionAndFinish (env : Env) (info : ReleaseInfo) (s : FS) (tr : List Op) : BodyResult :=
  if env.versionWriteFail then
    ⟨s, tr ++ [Op.updateProgress 1 "Installation complete!"], true, true, ""⟩
  else
    ⟨applyOp s (Op.saveVersion (encodeVersion info.tag_name info.published_at env.nowIso env.sourceName)),
     tr ++ [Op.saveVersion (encodeVersion info.tag_name info.published_at env.nowIso env.sourceName),
            Op.updateProgress 1 "Installation complete!"],
     true, true, ""⟩

/-- Config-name normalization (source lines 329–336).  After `copytree`
the install target's contents are exactly `d`, so the existence tests on
`cm_path/config_CG_Lin709.ocio` and `cm_path/config.ocio` are lookups
in `d`. -/
def configStep (env : Env) (info : ReleaseInfo) (d : Dirc) (s : FS) (tr : List Op) : BodyResult :=
  match d "config_CG_Lin709.ocio" with
  | none => versionAndFinish env info s tr
  | some c =>
    if (d "config.ocio").isSome then
      match env.removeConfigErr with
      | some e => ⟨s, tr, true, false, e⟩
      | none =>
        match env.copyConfigErr with
        | some e => ⟨applyOp s Op.removeConfigDest, tr ++ [Op.removeConfigDest], true, false, e⟩
        | none =>
          versionAndFinish env info
            (applyOp (applyOp s Op.removeConfigDest) (Op.copyConfig c))
            (tr ++ [Op.removeConfigDest, Op.copyConfig c])
    else
      match env.copyConfigErr with
      | some e => ⟨s, tr, true, false, e⟩
      | none =>
        versionAndFinish env info (applyOp s (Op.copyConfig c)) (tr ++ [Op.copyConfig c])

/-- `copytree` of the selected source tree (source lines 324–327); on
failure the target is left in an environment-chosen partial state. -/
def copytreeStep (env : Env) (info : ReleaseInfo) (d : Dirc) (s : FS) (tr : List Op) : BodyResult :=
  let tr := tr ++ [Op.updateProgress (9/10) "Installing new config..."]
  match env.copytreeErr with
  | some e =>
    ⟨applyOp s (Op.copytreeFailedPartial env.partialCm),
     tr ++ [Op.copytreeFailedPartial env.partialCm], true, false, e⟩
  | none => configStep env info d (applyOp s (Op.copytreeToCm d)) (tr ++ [Op.copytreeToCm d])

/-- The backup step (source lines 318–322): if the install target exists,
first remove any prior backup, then move the target to the backup path. -/
def backupStep (env : Env) (info : ReleaseInfo) (d : Dirc) (s : FS) (tr : List Op) : BodyResult :=
  match s.cm with
  | none => copytreeStep env info d s tr
  | some _ =>
    if s.backup.isSome then
      match env.rmtreeBackupErr with
      | some e => ⟨s, tr, true, false, e⟩
      | none =>
        match env.moveErr with
        | some e => ⟨applyOp s Op.rmtreeBackup, tr ++ [Op.rmtreeBackup], true, false, e⟩
        | none =>
          copytreeStep env info d
            (applyOp (applyOp s Op.rmtreeBackup) Op.moveCmToBackup)
            (tr ++ [Op.rmtreeBackup, Op.moveCmToBackup])
    else
      match env.moveErr with
      | some e => ⟨s, tr, true, false, e⟩
      | none => copytreeStep env info d (applyOp s Op.moveCmToBackup) (tr ++ [Op.moveCmToBackup])

/-- Parent-directory creation (source lines 313–316). -/
def parentStep (env : Env) (info : ReleaseInfo) (d : Dirc) (s : FS) (tr : List Op) : BodyResult :=
  if s.parentExists then backupStep env info d s tr
  else
    match env.makedirsErr with
    | some e => ⟨s, tr, true, false, e⟩
    | none => backupStep env info d (applyOp s Op.makedirs) (tr ++ [Op.makedirs])

/-- The `try` body of `download_and_install` (source lines 253–349). -/
def runBody (env : Env) (s0 : FS) : BodyResult :=
  if env.repoUrl = "" then
    ⟨s0, [], false, false, "No repository URL configured. Please set a custom URL in preferences."⟩
  else
    match get_latest_release_info (env.http (get_releases_api_url env.repoUrl)) with
    | none => ⟨s0, [Op.updateProgress 0 "Checking latest release..."], false, false,
        "Failed to get release info from GitHub"⟩
    | some info =>
      if info.zipball_url = "" then
        ⟨s0, [Op.updateProgress 0 "Checking latest release..."], false, false,
         "Failed to get release info from GitHub"⟩
      else
        let s1 := applyOp s0 Op.mkdtemp
        let dl := download_with_progress (env.download info.zipball_url)
        let tr2 := [Op.updateProgress 0 "Checking latest release...", Op.mkdtemp,
            Op.updateProgress (1/20) ("Downloading " ++ info.tag_name ++ "...")]
          ++ dl.2.map (fun u => Op.updateProgress u.1 u.2)
        if dl.1.1 = false then
          ⟨s1, tr2, true, false, "Download failed: " ++ dl.1.2⟩
        else
          let tr3 := tr2 ++ [Op.updateProgress (7/10) "Extracting files..."]
          match env.zipErr with
          | some e => ⟨s1, tr3, true, false, e⟩
          | none =>
            match env.entries with
            | [] => ⟨s1, tr3, true, false, "No files found in downloaded archive"⟩
            | d :: _ =>
              parentStep env info d s1
                (tr3 ++ [Op.updateProgress (4/5) "Backing up existing config..."])

/-- Full result of one run of the worker. -/
structure RunResult where
  fs : FS
  trace : List Op
  success : Bool
  errorMsg : String
  finished : Bool

/-- `download_and_install` (source lines 248–362): the `try` body followed
by the `finally` cleanup, which removes the temp directory when one was
created, swallowing a failing removal (`except Exception: pass`). -/
def download_and_install (env : Env) (s0 : FS) : RunResult :=
  let b := runBody env s0
  if b.tempCreated then
    if env.cleanupFail then ⟨b.fs, b.trace, b.success, b.errorMsg, true⟩
    else ⟨applyOp b.fs Op.rmtreeTemp, b.trace ++ [Op.rmtreeTemp], b.success, b.errorMsg, true⟩
  else ⟨b.fs, b.trace, b.success, b.errorMsg, true⟩

/-- The final notification emitted by `modal` once the worker finishes
(source lines 373–382). -/
def finalNotification (r : RunResult) : String × String :=
  if r.success then ("INFO", "AIO-OCIO installed successfully! Restart Blender to apply changes.")
  else ("ERROR", "Installation failed: " ++ r.errorMsg)

/-! ## The operator entry point (source lines 235–246 and 386–414) -/

/-- The process-wide progress state (source lines 28–31). -/
structure GlobalState where
  isDownloading : Bool
  downloadProgress : ℚ
  downloadStatus : String
deriving DecidableEq

/-- `OCIO_OT_install_update.update_progress` (source lines 242–246):
stores the given pair into the shared state verbatim. -/
def update_progress (g : GlobalState) (p : ℚ) (st : String) : GlobalState :=
  { g with downloadProgress := p, downloadStatus := st }

/-- Observable outcome of one `execute` invocation. -/
structure ExecOutcome where
  state : GlobalState
  result : String
  reports : List (String × String)
  spawnedWorker : Bool
deriving DecidableEq

/-- `OCIO_OT_install_update.execute` (source lines 386–414): reject with a
busy warning and `CANCELLED` when a download is in progress, otherwise
reset the progress state, spawn the worker and return `RUNNING_MODAL`. -/
def execute (g : GlobalState) : ExecOutcome :=
  if g.isDownloading then
    ⟨g, "CANCELLED", [("WARNING", "Download already in progress")], false⟩
  else
    ⟨⟨true, 0, "Initializing..."⟩, "RUNNING_MODAL", [], true⟩

/-! ## Claim C9 -/

/-- C9: invoking the install operator while a download is already running is
rejected with the busy warning and a `CANCELLED` result, leaves the shared
progress state unchanged, and spawns no second background worker. -/
theorem c9_busy_rejected (g : GlobalState) (h : g.isDownloading = true) :
    execute g = ⟨g, "CANCELLED", [("WARNING", "Download already in progress")], false⟩ := by
  simp [execute, h]

theorem c9_busy_rejected_witness :
    execute ⟨true, 1/2, "Downloading... 3 KB"⟩
      = ⟨⟨true, 1/2, "Downloading... 3 KB"⟩, "CANCELLED",
         [("WARNING", "Download already in progress")], false⟩ :=
  c9_busy_rejected ⟨true, 1/2, "Downloading... 3 KB"⟩ rfl

/-! ## Claim C7 -/

theorem download_with_progress_snd (resp : DownloadResp) :
    (download_with_progress resp).2
      = (cumBytes 0 resp.chunks).map
          (fun dcur => (fractionOf (resp.contentLength.getD 0) dcur, dlStatus dcur)) := by
  rcases h : resp.failAfter with _ | e <;> simp [download_with_progress, h]

theorem cumBytes_lower (l : List Nat) : ∀ (a : Nat), ∀ x ∈ cumBytes a l, a ≤ x := by
  induction l with
  | nil => intro a x hx; simp [cumBytes] at hx
  | cons c rest ih =>
    intro a x hx
    simp only [cumBytes, List.mem_cons] at hx
    rcases hx with rfl | hx
    · omega
    · have := ih (a + c) x hx
      omega

theorem cumBytes_pairwise (l : List Nat) : ∀ (a : Nat),
    List.Pairwise (· ≤ ·) (cumBytes a l) := by
  induction l with
  | nil => intro a; simp [cumBytes]
  | cons c rest ih =>
    intro a
    simp only [cumBytes, List.pairwise_cons]
    exact ⟨fun x hx => cumBytes_lower rest (a + c) x hx, ih (a + c)⟩

theorem cumBytes_upper (l : List Nat) : ∀ (a : Nat), ∀ x ∈ cumBytes a l, x ≤ a + l.sum := by
  induction l with
  | nil => intro a x hx; simp [cumBytes] at hx
  | cons c rest ih =>
    intro a x hx
    simp only [cumBytes, List.mem_cons] at hx
    rcases hx with rfl | hx
    · simp only [List.sum_cons]; omega
    · have := ih (a + c) x hx
      simp only [List.sum_cons] at this ⊢
      omega

/-- C7: within a single download, when the server declares a (positive)
content length the reported fraction is bytes-read divided by the declared
length and the fraction sequence is monotonically non-decreasing across the
callback invocations; when no content length is declared every invocation
reports the 0.5 sentinel. -/
theorem c7_progress_fractions (resp : DownloadResp) :
    (∀ L : Int, resp.contentLength = some L → 0 < L →
      (download_with_progress resp).2
          = (cumBytes 0 resp.chunks).map (fun dcur : Nat => ((dcur : ℚ) / (L : ℚ), dlStatus dcur))
        ∧ List.Pairwise (fun a b => a.1 ≤ b.1) (download_with_progress resp).2)
    ∧ (resp.contentLength = none →
        ∀ u ∈ (download_with_progress resp).2, u.1 = 1 / 2) := by
  constructor
  · intro L hL hpos
    have hfrac : ∀ dcur : Nat, fractionOf (resp.contentLength.getD 0) dcur
        = (dcur : ℚ) / (L : ℚ) := by
      intro dcur
      simp [hL, fractionOf, hpos]
    have hLQ : (0 : ℚ) < (L : ℚ) := by exact_mod_cast hpos
    constructor
    · rw [download_with_progress_snd]
      refine List.map_congr_left (fun d _ => ?_)
      rw [hfrac d]
    · rw [download_with_progress_snd]
      refine List.Pairwise.map _ (fun a b hab => ?_) (cumBytes_pairwise resp.chunks 0)
      show fractionOf (resp.contentLength.getD 0) a ≤ fractionOf (resp.contentLength.getD 0) b
      rw [hfrac a, hfrac b]
      exact div_le_div_of_nonneg_right (Nat.cast_le.mpr hab) hLQ.le
  · intro hN u hu
    rw [download_with_progress_snd] at hu
    simp only [List.mem_map] at hu
    obtain ⟨d, _, rfl⟩ := hu
    simp [hN, fractionOf]

theorem c7_progress_fractions_witness :
    ((download_with_progress ⟨some 10, [4, 6], none⟩).2
        = (cumBytes 0 [4, 6]).map (fun dcur : Nat => ((dcur : ℚ) / ((10 : Int) : ℚ), dlStatus dcur))
      ∧ List.Pairwise (fun a b => a.1 ≤ b.1) (download_with_progress ⟨some 10, [4, 6], none⟩).2)
    ∧ (∀ u ∈ (download_with_progress ⟨none, [4], none⟩).2, u.1 = 1 / 2) :=
  ⟨(c7_progress_fractions ⟨some 10, [4, 6], none⟩).1 10 rfl (by decide),
   (c7_progress_fractions ⟨none, [4], none⟩).2 rfl⟩

/-! ## Claim C2 -/

/-- C2, counterexample: for the malformed repository URL `"notaurl"` the
resolver does not return an empty/invalid (absent) result — the fallback at
source line 59 returns the input string unchanged. -/
theorem c2_counterexample :
    get_releases_api_url "notaurl" = "notaurl" ∧ ("notaurl" : String) ≠ "" := by
  constructor
  · decide
  · decide

/-- C2, amended: the resolver returns malformed URLs unchanged (fallback),
but every fetch that raises (unreachable endpoint, timeout, non-success
status, unparsable body) yields an absent result, and the caller treats an
absent result — or a missing download URL — as a hard failure: the run ends
unsuccessfully with the fixed resolution error and the filesystem state is
completely untouched. -/
theorem c2_resolution_failure (env : Env) (s0 : FS) (e : String)
    (hrepo : env.repoUrl ≠ "")
    (hbad : get_latest_release_info (env.http (get_releases_api_url env.repoUrl)) = none
      ∨ ∃ info, get_latest_release_info (env.http (get_releases_api_url env.repoUrl)) = some info
          ∧ info.zipball_url = "") :
    get_latest_release_info (HttpOutcome.failure e) = none ∧
    (download_and_install env s0).success = false ∧
    (download_and_install env s0).errorMsg = "Failed to get release info from GitHub" ∧
    (download_and_install env s0).fs = s0 := by
  refine ⟨rfl, ?_⟩
  rcases hbad with h | ⟨info, h, hz⟩
  · simp [download_and_install, runBody, hrepo, h]
  · simp [download_and_install, runBody, hrepo, h, hz]

/-- An always-empty directory tree, used by concrete witnesses. -/
def dEmpty : Dirc := fun _ => none

/-- A concrete environment whose release fetch fails. -/
def envFetchFail : Env :=
  ⟨"https://github.com/RolandVyens/AIO-OCIO", fun _ => HttpOutcome.failure "urlopen error",
   fun _ => ⟨none, [], none⟩, none, [], none, none, none, none, none, none, none,
   false, "", "", false⟩

/-- A concrete initial filesystem state. -/
def fs0 : FS := ⟨none, none, true, 0⟩

theorem c2_resolution_failure_witness :
    envFetchFail.repoUrl ≠ "" ∧
    (get_latest_release_info (HttpOutcome.failure "boom") = none ∧
     (download_and_install envFetchFail fs0).success = false ∧
     (download_and_install envFetchFail fs0).errorMsg = "Failed to get release info from GitHub" ∧
     (download_and_install envFetchFail fs0).fs = fs0) :=
  ⟨by decide,
   c2_resolution_failure envFetchFail fs0 "boom" (by decide) (Or.inl rfl)⟩

/-! ## Claim C8 -/

/-- C8, counterexample: when the response body is longer than the declared
`Content-Length` (declared 1 byte, body one 2-byte chunk), the download
callback is invoked with the fraction 2, and `update_progress` stores that
fraction verbatim — the shared progress fraction leaves `[0,1]`. -/
theorem c8_counterexample :
    (download_with_progress ⟨some 1, [2], none⟩).2 = [((2 : ℚ), dlStatus 2)] ∧
    ¬ ((2 : ℚ) ≤ 1) ∧
    (update_progress ⟨true, 0, ""⟩ 2 (dlStatus 2)).downloadProgress = 2 := by
  refine ⟨?_, by norm_num, rfl⟩
  show (download_with_progress ⟨some 1, [2], none⟩).2 = [((2 : ℚ), dlStatus 2)]
  rw [download_with_progress_snd]
  show [(fractionOf 1 2, dlStatus 2)] = [((2 : ℚ), dlStatus 2)]
  norm_num [fractionOf]

/-! ### Trace and temp-directory bookkeeping of the install stages -/

/-- An operation is a safe progress write: if it is an `updateProgress`, its
fraction lies in `[0,1]`. -/
def traceOpOk (op : Op) : Prop := ∀ p st, op = Op.updateProgress p st → 0 ≤ p ∧ p ≤ 1

theorem traceOpOk_update {p : ℚ} {st : String} (h0 : 0 ≤ p) (h1 : p ≤ 1) :
    traceOpOk (Op.updateProgress p st) := by
  intro q su heq
  cases heq
  exact ⟨h0, h1⟩

theorem versionAndFinish_mem (env : Env) (info : ReleaseInfo) (s : FS) (tr : List Op) (op : Op)
    (hop : op ∈ (versionAndFinish env info s tr).trace) : op ∈ tr ∨ traceOpOk op := by
  unfold versionAndFinish at hop
  split at hop <;> simp only [List.mem_append, List.mem_cons, List.not_mem_nil, or_false] at hop
  · rcases hop with h | h
    · exact Or.inl h
    · subst h; exact Or.inr (traceOpOk_update (by norm_num) (by norm_num))
  · rcases hop with h | h | h
    · exact Or.inl h
    · subst h; exact Or.inr (fun p st heq => Op.noConfusion heq)
    · subst h; exact Or.inr (traceOpOk_update (by norm_num) (by norm_num))

theorem configStep_mem (env : Env) (info : ReleaseInfo) (d : Dirc) (s : FS) (tr : List Op) (op : Op)
    (hop : op ∈ (configStep env info d s tr).trace) : op ∈ tr ∨ traceOpOk op := by
  unfold configStep at hop
  split at hop
  · exact versionAndFinish_mem env info s tr op hop
  · split at hop
    · split at hop
      · exact Or.inl hop
      · split at hop
        · simp only [List.mem_append, List.mem_cons, List.not_mem_nil, or_false] at hop
          rcases hop with h | h
          · exact Or.inl h
          · subst h; exact Or.inr (fun p st heq => Op.noConfusion heq)
        · rcases versionAndFinish_mem env info _ _ op hop with h | h
          · simp only [List.mem_append, List.mem_cons, List.not_mem_nil, or_false] at h
            rcases h with h | h | h
            · exact Or.inl h
            · subst h; exact Or.inr (fun p st heq => Op.noConfusion heq)
            · subst h; exact Or.inr (fun p st heq => Op.noConfusion heq)
          · exact Or.inr h
    · split at hop
      · exact Or.inl hop
      · rcases versionAndFinish_mem env info _ _ op hop with h | h
        · simp only [List.mem_append, List.mem_cons, List.not_mem_nil, or_false] at h
          rcases h with h | h
          · exact Or.inl h
          · subst h; exact Or.inr (fun p st heq => Op.noConfusion heq)
        · exact Or.inr h

theorem copytreeStep_mem (env : Env) (info : ReleaseInfo) (d : Dirc) (s : FS) (tr : List Op) (op : Op)
    (hop : op ∈ (copytreeStep env info d s tr).trace) : op ∈ tr ∨ traceOpOk op := by
  unfold copytreeStep at hop
  split at hop
  · simp only [List.mem_append, List.mem_cons, List.not_mem_nil, or_false] at hop
    rcases hop with (h | h) | h
    · exact Or.inl h
    · subst h; exact Or.inr (traceOpOk_update (by norm_num) (by norm_num))
    · subst h; exact Or.inr (fun p st heq => Op.noConfusion heq)
  · rcases configStep_mem env info d _ _ op hop with h | h
    · simp only [List.mem_append, List.mem_cons, List.not_mem_nil, or_false] at h
      rcases h with (h | h) | h
      · exact Or.inl h
      · subst h; exact Or.inr (traceOpOk_update (by norm_num) (by norm_num))
      · subst h; exact Or.inr (fun p st heq => Op.noConfusion heq)
    · exact Or.inr h

theorem backupStep_mem (env : Env) (info : ReleaseInfo) (d : Dirc) (s : FS) (tr : List Op) (op : Op)
    (hop : op ∈ (backupStep env info d s tr).trace) : op ∈ tr ∨ traceOpOk op := by
  unfold backupStep at hop
  split at hop
  · exact copytreeStep_mem env info d s tr op hop
  · split at hop
    · split at hop
      · exact Or.inl hop
      · split at hop
        · simp only [List.mem_append, List.mem_cons, List.not_mem_nil, or_false] at hop
          rcases hop with h | h
          · exact Or.inl h
          · subst h; exact Or.inr (fun p st heq => Op.noConfusion heq)
        · rcases copytreeStep_mem env info d _ _ op hop with h | h
          · simp only [List.mem_append, List.mem_cons, List.not_mem_nil, or_false] at h
            rcases h with h | h | h
            · exact Or.inl h
            · subst h; exact Or.inr (fun p st heq => Op.noConfusion heq)
            · subst h; exact Or.inr (fun p st heq => Op.noConfusion heq)
          · exact Or.inr h
    · split at hop
      · exact Or.inl hop
      · rcases copytreeStep_mem env info d _ _ op hop with h | h
        · simp only [List.mem_append, List.mem_cons, List.not_mem_nil, or_false] at h
          rcases h with h | h
          · exact Or.inl h
          · subst h; exact Or.inr (fun p st heq => Op.noConfusion heq)
        · exact Or.inr h

theorem parentStep_mem (env : Env) (info : ReleaseInfo) (d : Dirc) (s : FS) (tr : List Op) (op : Op)
    (hop : op ∈ (parentStep env info d s tr).trace) : op ∈ tr ∨ traceOpOk op := by
  unfold parentStep at hop
  split at hop
  · exact backupStep_mem env info d s tr op hop
  · split at hop
    · exact Or.inl hop
    · rcases backupStep_mem env info d _ _ op hop with h | h
      · simp only [List.mem_append, List.mem_cons, List.not_mem_nil, or_false] at h
        rcases h with h | h
        · exact Or.inl h
        · subst h; exact Or.inr (fun p st heq => Op.noConfusion heq)
      · exact Or.inr h

theorem dl_updates_mem (env : Env) (url : String) (op : Op)
    (h : op ∈ (download_with_progress (env.download url)).2.map
      (fun u => Op.updateProgress u.1 u.2)) :
    ∃ url', ∃ u ∈ (download_with_progress (env.download url')).2,
      op = Op.updateProgress u.1 u.2 := by
  simp only [List.mem_map] at h
  obtain ⟨u, hu, rfl⟩ := h
  exact ⟨url, u, hu, rfl⟩

theorem runBody_mem (env : Env) (s0 : FS) (op : Op)
    (hop : op ∈ (runBody env s0).trace) :
    traceOpOk op ∨ ∃ url, ∃ u ∈ (download_with_progress (env.download url)).2,
      op = Op.updateProgress u.1 u.2 := by
  simp only [runBody] at hop
  split at hop
  · simp at hop
  · split at hop
    · simp only [List.mem_cons, List.not_mem_nil, or_false] at hop
      subst hop
      exact Or.inl (traceOpOk_update le_rfl (by norm_num))
    · rename_i info _
      split at hop
      · simp only [List.mem_cons, List.not_mem_nil, or_false] at hop
        subst hop
        exact Or.inl (traceOpOk_update le_rfl (by norm_num))
      · have hpre : ∀ o ∈ ([Op.updateProgress 0 "Checking latest release...", Op.mkdtemp,
            Op.updateProgress (1/20) ("Downloading " ++ info.tag_name ++ "...")] : List Op),
            traceOpOk o := by
          intro o ho
          simp only [List.mem_cons, List.not_mem_nil, or_false] at ho
          rcases ho with rfl | rfl | rfl
          · exact traceOpOk_update le_rfl (by norm_num)
          · exact fun p st heq => Op.noConfusion heq
          · exact traceOpOk_update (by norm_num) (by norm_num)
        split at hop
        · rcases List.mem_append.mp hop with h | h
          · exact Or.inl (hpre op h)
          · exact Or.inr (dl_updates_mem env info.zipball_url op h)
        · have hextr : ∀ o ∈ ([Op.updateProgress 0 "Checking latest release...", Op.mkdtemp,
              Op.updateProgress (1/20) ("Downloading " ++ info.tag_name ++ "...")] : List Op)
                ++ (download_with_progress (env.download info.zipball_url)).2.map
                    (fun u => Op.updateProgress u.1 u.2)
                ++ [Op.updateProgress (7/10) "Extracting files..."],
              traceOpOk o ∨ ∃ url, ∃ u ∈ (download_with_progress (env.download url)).2,
                o = Op.updateProgress u.1 u.2 := by
            intro o ho
            rcases List.mem_append.mp ho with h | h
            · rcases List.mem_append.mp h with h' | h'
              · exact Or.inl (hpre o h')
              · exact Or.inr (dl_updates_mem env info.zipball_url o h')
            · simp only [List.mem_cons, List.not_mem_nil, or_false] at h
              subst h
              exact Or.inl (traceOpOk_update (by norm_num) (by norm_num))
          split at hop
          · exact hextr op hop
          · split at hop
            · exact hextr op hop
            · rcases parentStep_mem env info _ _ _ op hop with h | h
              · rcases List.mem_append.mp h with h' | h'
                · exact hextr op h'
                · simp only [List.mem_cons, List.not_mem_nil, or_false] at h'
                  subst h'
                  exact Or.inl (traceOpOk_update (by norm_num) (by norm_num))
              · exact Or.inl h

theorem dwp_bounds (resp : DownloadResp)
    (hgood : 0 < resp.contentLength.getD 0 →
      (resp.chunks.sum : Int) ≤ resp.contentLength.getD 0) :
    ∀ u ∈ (download_with_progress resp).2, 0 ≤ u.1 ∧ u.1 ≤ 1 := by
  intro u hu
  rw [download_with_progress_snd] at hu
  simp only [List.mem_map] at hu
  obtain ⟨dcur, hd, rfl⟩ := hu
  show 0 ≤ fractionOf (resp.contentLength.getD 0) dcur
      ∧ fractionOf (resp.contentLength.getD 0) dcur ≤ 1
  unfold fractionOf
  split
  · rename_i hpos
    have htotQ : (0 : ℚ) < ((resp.contentLength.getD 0 : Int) : ℚ) := by exact_mod_cast hpos
    constructor
    · exact div_nonneg (Nat.cast_nonneg dcur) htotQ.le
    · rw [div_le_one htotQ]
      have h1 : dcur ≤ resp.chunks.sum := by
        have := cumBytes_upper resp.chunks 0 dcur hd
        omega
      have h2 : (dcur : Int) ≤ resp.contentLength.getD 0 :=
        le_trans (by exact_mod_cast h1) (hgood hpos)
      exact_mod_cast h2
  · norm_num

/-- C8, amended: every milestone write of the orchestrator stores a fraction
in `[0,1]`, and so does every download-callback write provided the body does
not exceed a positive declared content length; so under that proviso every
write to the shared progress fraction lies in `[0,1]`. -/
theorem c8_progress_in_unit_interval (env : Env) (s0 : FS)
    (hgood : ∀ url, 0 < (env.download url).contentLength.getD 0 →
      ((env.download url).chunks.sum : Int) ≤ (env.download url).contentLength.getD 0) :
    ∀ p st, Op.updateProgress p st ∈ (download_and_install env s0).trace → 0 ≤ p ∧ p ≤ 1 := by
  intro p st hmem
  have hb : Op.updateProgress p st ∈ (runBody env s0).trace := by
    simp only [download_and_install] at hmem
    split at hmem
    · split at hmem
      · exact hmem
      · rcases List.mem_append.mp hmem with h | h
        · exact h
        · simp only [List.mem_cons, List.not_mem_nil, or_false] at h
          exact absurd h (by simp)
    · exact hmem
  rcases runBody_mem env s0 _ hb with h | ⟨url, u, hu, heq⟩
  · exact h p st rfl
  · obtain ⟨h1, h2⟩ := dwp_bounds (env.download url) (hgood url) u hu
    injection heq with hp hst
    subst hp
    exact ⟨h1, h2⟩

/-- A tree containing the well-known config file, used by witnesses. -/
def dConfig : Dirc := fun n => if n = "config_CG_Lin709.ocio" then some "ocio-profile" else none

/-- A concrete environment in which everything succeeds. -/
def envHappy : Env :=
  ⟨"https://github.com/RolandVyens/AIO-OCIO",
   fun _ => HttpOutcome.ok (some "v2.0") (some "2024-01-01")
     (some "https://api.github.com/zipball") (some "AIO"),
   fun _ => ⟨some 100, [40, 60], none⟩, none, [dConfig], none, none, none, none, none,
   none, none, false, "2026-01-01T00:00:00", "AIO_OCIO", false⟩

theorem c8_progress_in_unit_interval_witness :
    (∀ url, 0 < (envHappy.download url).contentLength.getD 0 →
      ((envHappy.download url).chunks.sum : Int) ≤ (envHappy.download url).contentLength.getD 0) ∧
    (∀ p st, Op.updateProgress p st ∈ (download_and_install envHappy fs0).trace → 0 ≤ p ∧ p ≤ 1) :=
  ⟨fun _ _ => by show (((40 + (60 + 0) : Nat) : Int)) ≤ (100 : Int); decide,
   c8_progress_in_unit_interval envHappy fs0
     (fun _ _ => by show (((40 + (60 + 0) : Nat) : Int)) ≤ (100 : Int); decide)⟩

theorem versionAndFinish_temp (env : Env) (info : ReleaseInfo) (s : FS) (tr : List Op) :
    (versionAndFinish env info s tr).tempCreated = true ∧
    (versionAndFinish env info s tr).fs.tempCount = s.tempCount := by
  unfold versionAndFinish
  split <;> simp [applyOp]

theorem configStep_temp (env : Env) (info : ReleaseInfo) (d : Dirc) (s : FS) (tr : List Op) :
    (configStep env info d s tr).tempCreated = true ∧
    (configStep env info d s tr).fs.tempCount = s.tempCount := by
  unfold configStep
  split
  · exact versionAndFinish_temp env info s tr
  · split
    · split
      · simp
      · split
        · simp [applyOp]
        · obtain ⟨h1, h2⟩ := versionAndFinish_temp env info
            (applyOp (applyOp s Op.removeConfigDest) (Op.copyConfig _)) _
          exact ⟨h1, by rw [h2]; simp [applyOp]⟩
    · split
      · simp
      · obtain ⟨h1, h2⟩ := versionAndFinish_temp env info (applyOp s (Op.copyConfig _)) _
        exact ⟨h1, by rw [h2]; simp [applyOp]⟩

theorem copytreeStep_temp (env : Env) (info : ReleaseInfo) (d : Dirc) (s : FS) (tr : List Op) :
    (copytreeStep env info d s tr).tempCreated = true ∧
    (copytreeStep env info d s tr).fs.tempCount = s.tempCount := by
  unfold copytreeStep
  split
  · simp [applyOp]
  · obtain ⟨h1, h2⟩ := configStep_temp env info d (applyOp s (Op.copytreeToCm d)) _
    exact ⟨h1, by rw [h2]; simp [applyOp]⟩

theorem backupStep_temp (env : Env) (info : ReleaseInfo) (d : Dirc) (s : FS) (tr : List Op) :
    (backupStep env info d s tr).tempCreated = true ∧
    (backupStep env info d s tr).fs.tempCount = s.tempCount := by
  unfold backupStep
  split
  · exact copytreeStep_temp env info d s tr
  · split
    · split
      · simp
      · split
        · simp [applyOp]
        · obtain ⟨h1, h2⟩ := copytreeStep_temp env info d
            (applyOp (applyOp s Op.rmtreeBackup) Op.moveCmToBackup) _
          exact ⟨h1, by rw [h2]; simp [applyOp]⟩
    · split
      · simp
      · obtain ⟨h1, h2⟩ := copytreeStep_temp env info d (applyOp s Op.moveCmToBackup) _
        exact ⟨h1, by rw [h2]; simp [applyOp]⟩

theorem parentStep_temp (env : Env) (info : ReleaseInfo) (d : Dirc) (s : FS) (tr : List Op) :
    (parentStep env info d s tr).tempCreated = true ∧
    (parentStep env info d s tr).fs.tempCount = s.tempCount := by
  unfold parentStep
  split
  · exact backupStep_temp env info d s tr
  · split
    · simp
    · obtain ⟨h1, h2⟩ := backupStep_temp env info d (applyOp s Op.makedirs) _
      exact ⟨h1, by rw [h2]; simp [applyOp]⟩

theorem runBody_temp (env : Env) (s0 : FS) :
    ((runBody env s0).tempCreated = true ∧ (runBody env s0).fs.tempCount = s0.tempCount + 1)
    ∨ ((runBody env s0).tempCreated = false ∧ (runBody env s0).fs = s0) := by
  simp only [runBody]
  split
  · right; simp
  · split
    · right; simp
    · split
      · right; simp
      · left
        split
        · simp [applyOp]
        · split
          · simp [applyOp]
          · split
            · simp [applyOp]
            · obtain ⟨h1, h2⟩ := parentStep_temp env _ _ (applyOp s0 Op.mkdtemp) _
              exact ⟨h1, by rw [h2]; simp [applyOp]⟩

/-- `envHappy` with a failing cleanup removal. -/
def envLeak : Env :=
  ⟨"https://github.com/RolandVyens/AIO-OCIO",
   fun _ => HttpOutcome.ok (some "v2.0") (some "2024-01-01")
     (some "https://api.github.com/zipball") (some "AIO"),
   fun _ => ⟨some 100, [40, 60], none⟩, none, [dConfig], none, none, none, none, none,
   none, none, false, "2026-01-01T00:00:00", "AIO_OCIO", true⟩

/-- C6, counterexample: when the `shutil.rmtree` in the `finally` block
itself raises, the exception is swallowed (`except Exception: pass`, source
lines 356–359) and the scratch directory leaks: starting from zero temp
directories, a finished run leaves one. -/
theorem c6_counterexample :
    fs0.tempCount = 0 ∧
    (download_and_install envLeak fs0).finished = true ∧
    (download_and_install envLeak fs0).fs.tempCount = 1 := by
  refine ⟨rfl, rfl, ?_⟩
  rfl

/-- Every run is marked finished, on every exit path. -/
theorem download_and_install_finished (env : Env) (s0 : FS) :
    (download_and_install env s0).finished = true := by
  simp only [download_and_install]
  split
  · split <;> rfl
  · rfl

/-- C6, amended: on every exit path — success, resolution failure, download
failure, extraction failure, empty archive, any filesystem failure — the
`finally` block removes the scratch directory whenever the removal call
itself succeeds, so the number of live temp directories returns to its
initial value and the run is marked finished. -/
theorem c6_temp_cleanup (env : Env) (s0 : FS) (h : env.cleanupFail = false) :
    (download_and_install env s0).fs.tempCount = s0.tempCount ∧
    (download_and_install env s0).finished = true := by
  refine ⟨?_, download_and_install_finished env s0⟩
  rcases runBody_temp env s0 with ⟨h1, h2⟩ | ⟨h1, h2⟩
  · simp only [download_and_install, h1, h]
    simp [applyOp, h2]
  · simp only [download_and_install, h1]
    simp [h2]

theorem c6_temp_cleanup_witness :
    envHappy.cleanupFail = false ∧
    ((download_and_install envHappy fs0).fs.tempCount = fs0.tempCount ∧
     (download_and_install envHappy fs0).finished = true) :=
  ⟨rfl, c6_temp_cleanup envHappy fs0 rfl⟩

/-! ## Claim C4 -/

/-- C4: when the download step fails, the run aborts before any filesystem
mutation of the install target: the pre-existing target is untouched (never
moved), no backup is removed or created, nothing is copied over the target,
the run is unsuccessful, and the final notification is an error whose
message contains "Download failed". -/
theorem c4_download_failure (env : Env) (s0 : FS) (info : ReleaseInfo) (e : String)
    (hrepo : env.repoUrl ≠ "")
    (hinfo : get_latest_release_info (env.http (get_releases_api_url env.repoUrl)) = some info)
    (hzip : info.zipball_url ≠ "")
    (hfail : (env.download info.zipball_url).failAfter = some e) :
    (download_and_install env s0).fs.cm = s0.cm ∧
    (download_and_install env s0).fs.backup = s0.backup ∧
    (download_and_install env s0).fs.parentExists = s0.parentExists ∧
    Op.moveCmToBackup ∉ (download_and_install env s0).trace ∧
    Op.rmtreeBackup ∉ (download_and_install env s0).trace ∧
    (∀ d, Op.copytreeToCm d ∉ (download_and_install env s0).trace) ∧
    (download_and_install env s0).success = false ∧
    (finalNotification (download_and_install env s0)).1 = "ERROR" ∧
    "Download failed".data <:+: (finalNotification (download_and_install env s0)).2.data := by
  have h1 : (download_with_progress (env.download info.zipball_url)).1 = (false, e) := by
    simp [download_with_progress, hfail]
  have hrb : runBody env s0 = ⟨applyOp s0 Op.mkdtemp,
      [Op.updateProgress 0 "Checking latest release...", Op.mkdtemp,
       Op.updateProgress (1/20) ("Downloading " ++ info.tag_name ++ "...")]
        ++ (download_with_progress (env.download info.zipball_url)).2.map
            (fun u => Op.updateProgress u.1 u.2),
      true, false, "Download failed: " ++ e⟩ := by
    simp only [runBody, hinfo]
    rw [if_neg hrepo, if_neg hzip, h1]
    simp
  have hinf : "Download failed".data
      <:+: ("Installation failed: " ++ ("Download failed: " ++ e)).data := by
    have hx : ("Installation failed: " ++ ("Download failed: " ++ e)).data
        = "Installation failed: ".data ++ ("Download failed".data ++ (": ".data ++ e.data)) := by
      simp only [String.data_append]
      congr 1
    exact ⟨"Installation failed: ".data, ": ".data ++ e.data,
      by rw [hx]; simp [List.append_assoc]⟩
  have hnotmem : ∀ (o : Op) (tr2 : List Op), (∀ op ∈ tr2, op = Op.rmtreeTemp) →
      (∀ p st, o ≠ Op.updateProgress p st) → o ≠ Op.mkdtemp → o ≠ Op.rmtreeTemp →
      o ∉ ([Op.updateProgress 0 "Checking latest release...", Op.mkdtemp,
          Op.updateProgress (1/20) ("Downloading " ++ info.tag_name ++ "...")]
          ++ (download_with_progress (env.download info.zipball_url)).2.map
              (fun u => Op.updateProgress u.1 u.2)) ++ tr2 := by
    intro o tr2 htr2 hnu hnm hnr hmem
    rcases List.mem_append.mp hmem with h | h
    · rcases List.mem_append.mp h with h' | h'
      · simp only [List.mem_cons, List.not_mem_nil, or_false] at h'
        rcases h' with h' | h' | h'
        · exact hnu _ _ h'
        · exact hnm h'
        · exact hnu _ _ h'
      · simp only [List.mem_map] at h'
        obtain ⟨u, _, heq⟩ := h'
        exact hnu _ _ heq.symm
    · exact hnr (htr2 _ h)
  cases hcf : env.cleanupFail with
  | true =>
    have hdi : download_and_install env s0
        = ⟨applyOp s0 Op.mkdtemp,
           [Op.updateProgress 0 "Checking latest release...", Op.mkdtemp,
            Op.updateProgress (1/20) ("Downloading " ++ info.tag_name ++ "...")]
             ++ (download_with_progress (env.download info.zipball_url)).2.map
                 (fun u => Op.updateProgress u.1 u.2),
           false, "Download failed: " ++ e, true⟩ := by
      simp [download_and_install, hrb, hcf]
    refine ⟨?_, ?_, ?_, ?_, ?_, ?_, ?_, ?_, ?_⟩
    · rw [hdi]; simp [applyOp]
    · rw [hdi]; simp [applyOp]
    · rw [hdi]; simp [applyOp]
    · rw [hdi]
      have hh := hnotmem Op.moveCmToBackup [] (by simp)
        (fun p st h => Op.noConfusion h) (fun h => Op.noConfusion h) (fun h => Op.noConfusion h)
      rw [List.append_nil] at hh
      exact hh
    · rw [hdi]
      have hh := hnotmem Op.rmtreeBackup [] (by simp)
        (fun p st h => Op.noConfusion h) (fun h => Op.noConfusion h) (fun h => Op.noConfusion h)
      rw [List.append_nil] at hh
      exact hh
    · intro d
      rw [hdi]
      have hh := hnotmem (Op.copytreeToCm d) [] (by simp)
        (fun p st h => Op.noConfusion h) (fun h => Op.noConfusion h) (fun h => Op.noConfusion h)
      rw [List.append_nil] at hh
      exact hh
    · rw [hdi]
    · rw [hdi]; simp [finalNotification]
    · rw [hdi]
      simpa [finalNotification] using hinf
  | false =>
    have hdi : download_and_install env s0
        = ⟨applyOp (applyOp s0 Op.mkdtemp) Op.rmtreeTemp,
           ([Op.updateProgress 0 "Checking latest release...", Op.mkdtemp,
             Op.updateProgress (1/20) ("Downloading " ++ info.tag_name ++ "...")]
             ++ (download_with_progress (env.download info.zipball_url)).2.map
                 (fun u => Op.updateProgress u.1 u.2)) ++ [Op.rmtreeTemp],
           false, "Download failed: " ++ e, true⟩ := by
      simp [download_and_install, hrb, hcf]
    refine ⟨?_, ?_, ?_, ?_, ?_, ?_, ?_, ?_, ?_⟩
    · rw [hdi]; simp [applyOp]
    · rw [hdi]; simp [applyOp]
    · rw [hdi]; simp [applyOp]
    · rw [hdi]
      exact hnotmem Op.moveCmToBackup [Op.rmtreeTemp] (by simp)
        (fun p st h => Op.noConfusion h) (fun h => Op.noConfusion h) (fun h => Op.noConfusion h)
    · rw [hdi]
      exact hnotmem Op.rmtreeBackup [Op.rmtreeTemp] (by simp)
        (fun p st h => Op.noConfusion h) (fun h => Op.noConfusion h) (fun h => Op.noConfusion h)
    · intro d
      rw [hdi]
      exact hnotmem (Op.copytreeToCm d) [Op.rmtreeTemp] (by simp)
        (fun p st h => Op.noConfusion h) (fun h => Op.noConfusion h) (fun h => Op.noConfusion h)
    · rw [hdi]
    · rw [hdi]; simp [finalNotification]
    · rw [hdi]
      simpa [finalNotification] using hinf

/-- The release record produced by the witnesses' fetch outcome. -/
def infoHappy : ReleaseInfo := ⟨"v2.0", "2024-01-01", "https://api.github.com/zipball", "AIO"⟩

/-- `envHappy` with a download that fails after one chunk. -/
def envDlFail : Env :=
  ⟨"https://github.com/RolandVyens/AIO-OCIO",
   fun _ => HttpOutcome.ok (some "v2.0") (some "2024-01-01")
     (some "https://api.github.com/zipball") (some "AIO"),
   fun _ => ⟨some 100, [40], some "timed out"⟩, none, [dConfig], none, none, none, none,
   none, none, none, false, "2026-01-01T00:00:00", "AIO_OCIO", false⟩

/-- An initial state carrying a prior install. -/
def fsPrior : FS := ⟨some dConfig, none, true, 0⟩

theorem c4_download_failure_witness :
    (envDlFail.repoUrl ≠ "" ∧
     get_latest_release_info (envDlFail.http (get_releases_api_url envDlFail.repoUrl)) = some infoHappy ∧
     infoHappy.zipball_url ≠ "" ∧
     (envDlFail.download infoHappy.zipball_url).failAfter = some "timed out") ∧
    ((download_and_install envDlFail fsPrior).fs.cm = fsPrior.cm ∧
     (download_and_install envDlFail fsPrior).fs.backup = fsPrior.backup ∧
     (download_and_install envDlFail fsPrior).fs.parentExists = fsPrior.parentExists ∧
     Op.moveCmToBackup ∉ (download_and_install envDlFail fsPrior).trace ∧
     Op.rmtreeBackup ∉ (download_and_install envDlFail fsPrior).trace ∧
     (∀ d, Op.copytreeToCm d ∉ (download_and_install envDlFail fsPrior).trace) ∧
     (download_and_install envDlFail fsPrior).success = false ∧
     (finalNotification (download_and_install envDlFail fsPrior)).1 = "ERROR" ∧
     "Download failed".data <:+: (finalNotification (download_and_install envDlFail fsPrior)).2.data) :=
  ⟨⟨by decide, rfl, by decide, rfl⟩,
   c4_download_failure envDlFail fsPrior infoHappy "timed out" (by decide) rfl (by decide) rfl⟩

/-! ### The success path of the install -/

/-- All external outcomes up to and including the install steps succeed. -/
structure EnvOk (env : Env) (info : ReleaseInfo) : Prop where
  hrepo : env.repoUrl ≠ ""
  hinfo : get_latest_release_info (env.http (get_releases_api_url env.repoUrl)) = some info
  hzip : info.zipball_url ≠ ""
  hdl : (env.download info.zipball_url).failAfter = none
  hzipok : env.zipErr = none
  hmk : env.makedirsErr = none
  hrm : env.rmtreeBackupErr = none
  hmv : env.moveErr = none
  hcp : env.copytreeErr = none
  hrmc : env.removeConfigErr = none
  hcpc : env.copyConfigErr = none

/-- Worker trace up to (and including) the 0.8 milestone. -/
def preTrace (env : Env) (info : ReleaseInfo) : List Op :=
  [Op.updateProgress 0 "Checking latest release...", Op.mkdtemp,
   Op.updateProgress (1/20) ("Downloading " ++ info.tag_name ++ "...")]
    ++ (download_with_progress (env.download info.zipball_url)).2.map
        (fun u => Op.updateProgress u.1 u.2)
    ++ [Op.updateProgress (7/10) "Extracting files...",
        Op.updateProgress (4/5) "Backing up existing config..."]

/-- Operations of the parent-directory step. -/
def mkParentOps (s : FS) : List Op := if s.parentExists then [] else [Op.makedirs]

/-- Operations of the backup step when the install target exists. -/
def bkOps (s : FS) : List Op :=
  if s.backup.isSome then [Op.rmtreeBackup, Op.moveCmToBackup] else [Op.moveCmToBackup]

/-- Operations of the config-normalization step. -/
def cfgOps (d : Dirc) : List Op :=
  match d "config_CG_Lin709.ocio" with
  | none => []
  | some c => if (d "config.ocio").isSome then [Op.removeConfigDest, Op.copyConfig c]
              else [Op.copyConfig c]

/-- Operations of the version save and the final milestone. -/
def vfOps (env : Env) (info : ReleaseInfo) : List Op :=
  if env.versionWriteFail then [Op.updateProgress 1 "Installation complete!"]
  else [Op.saveVersion (encodeVersion info.tag_name info.published_at env.nowIso env.sourceName),
        Op.updateProgress 1 "Installation complete!"]

theorem parentStep_success (env : Env) (info : ReleaseInfo) (d : Dirc) (s : FS) (tr : List Op)
    (hmk : env.makedirsErr = none) :
    parentStep env info d s tr
      = backupStep env info d (if s.parentExists then s else applyOp s Op.makedirs)
          (tr ++ mkParentOps s) := by
  unfold parentStep mkParentOps
  cases hpe : s.parentExists <;> simp [hmk, hpe]

theorem backupStep_success (env : Env) (info : ReleaseInfo) (d : Dirc) (s : FS) (tr : List Op)
    (hrm : env.rmtreeBackupErr = none) (hmv : env.moveErr = none) :
    backupStep env info d s tr
      = copytreeStep env info d
          (match s.cm with
           | none => s
           | some _ =>
             if s.backup.isSome then applyOp (applyOp s Op.rmtreeBackup) Op.moveCmToBackup
             else applyOp s Op.moveCmToBackup)
          (tr ++ (match s.cm with | none => [] | some _ => bkOps s)) := by
  unfold backupStep bkOps
  cases hcm : s.cm with
  | none => simp
  | some d0 => cases hb : s.backup.isSome <;> simp [hrm, hmv, hb]

theorem copytreeStep_success (env : Env) (info : ReleaseInfo) (d : Dirc) (s : FS) (tr : List Op)
    (hcp : env.copytreeErr = none) :
    copytreeStep env info d s tr
      = configStep env info d (applyOp s (Op.copytreeToCm d))
          (tr ++ [Op.updateProgress (9/10) "Installing new config...", Op.copytreeToCm d]) := by
  unfold copytreeStep
  simp [hcp]

theorem configStep_success (env : Env) (info : ReleaseInfo) (d : Dirc) (s : FS) (tr : List Op)
    (hrmc : env.removeConfigErr = none) (hcpc : env.copyConfigErr = none) :
    configStep env info d s tr
      = match d "config_CG_Lin709.ocio" with
        | none => versionAndFinish env info s tr
        | some c =>
          if (d "config.ocio").isSome then
            versionAndFinish env info (applyOp (applyOp s Op.removeConfigDest) (Op.copyConfig c))
              (tr ++ [Op.removeConfigDest, Op.copyConfig c])
          else
            versionAndFinish env info (applyOp s (Op.copyConfig c)) (tr ++ [Op.copyConfig c]) := by
  unfold configStep
  cases hc : d "config_CG_Lin709.ocio" with
  | none => simp
  | some c => cases hdst : (d "config.ocio").isSome <;> simp [hrmc, hcpc, hdst]

theorem runBody_success_eq (env : Env) (s0 : FS) (info : ReleaseInfo) (d : Dirc) (rest : List Dirc)
    (h : EnvOk env info) (hent : env.entries = d :: rest) :
    runBody env s0 = parentStep env info d (applyOp s0 Op.mkdtemp) (preTrace env info) := by
  have h1 : (download_with_progress (env.download info.zipball_url)).1 = (true, "") := by
    simp [download_with_progress, h.hdl]
  simp only [runBody, h.hinfo]
  rw [if_neg h.hrepo, if_neg h.hzip, h1]
  simp [h.hzipok, hent, preTrace, List.append_assoc]

theorem versionAndFinish_flags (env : Env) (info : ReleaseInfo) (s : FS) (tr : List Op) :
    (versionAndFinish env info s tr).success = true
      ∧ (versionAndFinish env info s tr).errorMsg = ""
      ∧ (versionAndFinish env info s tr).trace = tr ++ vfOps env info := by
  unfold versionAndFinish vfOps
  split <;> simp

theorem versionAndFinish_backup (env : Env) (info : ReleaseInfo) (s : FS) (tr : List Op) :
    (versionAndFinish env info s tr).fs.backup = s.backup := by
  unfold versionAndFinish
  split <;> simp [applyOp]

theorem versionAndFinish_cm (env : Env) (info : ReleaseInfo) (s : FS) (tr : List Op)
    (d : Dirc) (hs : s.cm = some d) :
    ∃ dF, (versionAndFinish env info s tr).fs.cm = some dF
      ∧ ∀ n, n ≠ VERSION_FILE → dF n = d n := by
  unfold versionAndFinish
  split
  · exact ⟨d, hs, fun n _ => rfl⟩
  · refine ⟨dirSet d VERSION_FILE
      (some (encodeVersion info.tag_name info.published_at env.nowIso env.sourceName)), ?_, ?_⟩
    · simp [applyOp, hs]
    · intro n hn
      simp [dirSet, hn]

theorem configStep_flags (env : Env) (info : ReleaseInfo) (d : Dirc) (s : FS) (tr : List Op)
    (hrmc : env.removeConfigErr = none) (hcpc : env.copyConfigErr = none) :
    (configStep env info d s tr).success = true
      ∧ (configStep env info d s tr).errorMsg = ""
      ∧ (configStep env info d s tr).trace = tr ++ (cfgOps d ++ vfOps env info) := by
  rw [configStep_success env info d s tr hrmc hcpc]
  unfold cfgOps
  cases hc : d "config_CG_Lin709.ocio" with
  | none =>
    obtain ⟨h1, h2, h3⟩ := versionAndFinish_flags env info s tr
    exact ⟨h1, h2, by rw [h3]; simp⟩
  | some c =>
    cases hdst : (d "config.ocio").isSome <;> simp only [hdst, if_true, if_false,
      Bool.false_eq_true]
    · obtain ⟨h1, h2, h3⟩ := versionAndFinish_flags env info (applyOp s (Op.copyConfig c))
        (tr ++ [Op.copyConfig c])
      exact ⟨h1, h2, by rw [h3]; simp⟩
    · obtain ⟨h1, h2, h3⟩ := versionAndFinish_flags env info
        (applyOp (applyOp s Op.removeConfigDest) (Op.copyConfig c))
        (tr ++ [Op.removeConfigDest, Op.copyConfig c])
      exact ⟨h1, h2, by rw [h3]; simp⟩

theorem configStep_backup (env : Env) (info : ReleaseInfo) (d : Dirc) (s : FS) (tr : List Op)
    (hrmc : env.removeConfigErr = none) (hcpc : env.copyConfigErr = none) :
    (configStep env info d s tr).fs.backup = s.backup := by
  rw [configStep_success env info d s tr hrmc hcpc]
  cases hc : d "config_CG_Lin709.ocio" with
  | none => exact versionAndFinish_backup env info s tr
  | some c =>
    cases hdst : (d "config.ocio").isSome <;> simp only [hdst, if_true, if_false,
      Bool.false_eq_true]
    · rw [versionAndFinish_backup]
      simp [applyOp]
    · rw [versionAndFinish_backup]
      simp [applyOp]

theorem configStep_cm (env : Env) (info : ReleaseInfo) (d : Dirc) (s : FS) (tr : List Op)
    (hrmc : env.removeConfigErr = none) (hcpc : env.copyConfigErr = none)
    (hs : s.cm = some d) :
    ∃ dF, (configStep env info d s tr).fs.cm = some dF
      ∧ dF "config_CG_Lin709.ocio" = d "config_CG_Lin709.ocio"
      ∧ (∀ c, d "config_CG_Lin709.ocio" = some c → dF "config.ocio" = some c)
      ∧ (d "config_CG_Lin709.ocio" = none → dF "config.ocio" = d "config.ocio") := by
  rw [configStep_success env info d s tr hrmc hcpc]
  cases hc : d "config_CG_Lin709.ocio" with
  | none =>
    obtain ⟨dF, h1, h2⟩ := versionAndFinish_cm env info s tr d hs
    refine ⟨dF, h1, ?_, ?_, ?_⟩
    · rw [h2 _ (by decide)]
      exact hc
    · intro c hcon
      exact Option.noConfusion hcon
    · intro _
      exact h2 _ (by decide)
  | some c =>
    cases hdst : (d "config.ocio").isSome <;> simp only [hdst, if_true, if_false,
      Bool.false_eq_true]
    · have hs' : (applyOp s (Op.copyConfig c)).cm = some (dirSet d "config.ocio" (some c)) := by
        simp [applyOp, hs]
      obtain ⟨dF, h1, h2⟩ := versionAndFinish_cm env info _ _ _ hs'
      refine ⟨dF, h1, ?_, ?_, ?_⟩
      · rw [h2 _ (by decide)]
        simp only [dirSet]
        rw [if_neg (by decide)]
        exact hc
      · intro c' hcon
        cases hcon
        rw [h2 _ (by decide)]
        simp [dirSet]
      · intro hcon
        exact Option.noConfusion hcon
    · have hs' : (applyOp (applyOp s Op.removeConfigDest) (Op.copyConfig c)).cm
          = some (dirSet (dirSet d "config.ocio" none) "config.ocio" (some c)) := by
        simp [applyOp, hs]
      obtain ⟨dF, h1, h2⟩ := versionAndFinish_cm env info _ _ _ hs'
      refine ⟨dF, h1, ?_, ?_, ?_⟩
      · rw [h2 _ (by decide)]
        simp only [dirSet]
        rw [if_neg (by decide), if_neg (by decide)]
        exact hc
      · intro c' hcon
        cases hcon
        rw [h2 _ (by decide)]
        simp [dirSet]
      · intro hcon
        exact Option.noConfusion hcon

theorem copytreeStep_all (env : Env) (info : ReleaseInfo) (d : Dirc) (s : FS) (tr : List Op)
    (hcp : env.copytreeErr = none) (hrmc : env.removeConfigErr = none)
    (hcpc : env.copyConfigErr = none) :
    (copytreeStep env info d s tr).success = true
      ∧ (copytreeStep env info d s tr).errorMsg = ""
      ∧ (copytreeStep env info d s tr).trace
          = tr ++ ([Op.updateProgress (9/10) "Installing new config...", Op.copytreeToCm d]
              ++ (cfgOps d ++ vfOps env info))
      ∧ (copytreeStep env info d s tr).fs.backup = s.backup
      ∧ ∃ dF, (copytreeStep env info d s tr).fs.cm = some dF
          ∧ dF "config_CG_Lin709.ocio" = d "config_CG_Lin709.ocio"
          ∧ (∀ c, d "config_CG_Lin709.ocio" = some c → dF "config.ocio" = some c)
          ∧ (d "config_CG_Lin709.ocio" = none → dF "config.ocio" = d "config.ocio") := by
  rw [copytreeStep_success env info d s tr hcp]
  obtain ⟨h1, h2, h3⟩ := configStep_flags env info d (applyOp s (Op.copytreeToCm d))
    (tr ++ [Op.updateProgress (9/10) "Installing new config...", Op.copytreeToCm d]) hrmc hcpc
  refine ⟨h1, h2, ?_, ?_, ?_⟩
  · rw [h3]
    simp [List.append_assoc]
  · rw [configStep_backup env info d _ _ hrmc hcpc]
    simp [applyOp]
  · exact configStep_cm env info d _ _ hrmc hcpc (by simp [applyOp])

theorem backupStep_all (env : Env) (info : ReleaseInfo) (d : Dirc) (s : FS) (tr : List Op)
    (hrm : env.rmtreeBackupErr = none) (hmv : env.moveErr = none)
    (hcp : env.copytreeErr = none) (hrmc : env.removeConfigErr = none)
    (hcpc : env.copyConfigErr = none) :
    (backupStep env info d s tr).success = true
      ∧ (backupStep env info d s tr).errorMsg = ""
      ∧ (backupStep env info d s tr).trace
          = tr ++ ((match s.cm with | none => [] | some _ => bkOps s)
              ++ ([Op.updateProgress (9/10) "Installing new config...", Op.copytreeToCm d]
                  ++ (cfgOps d ++ vfOps env info)))
      ∧ (backupStep env info d s tr).fs.backup
          = (match s.cm with | none => s.backup | some _ => s.cm)
      ∧ ∃ dF, (backupStep env info d s tr).fs.cm = some dF
          ∧ dF "config_CG_Lin709.ocio" = d "config_CG_Lin709.ocio"
          ∧ (∀ c, d "config_CG_Lin709.ocio" = some c → dF "config.ocio" = some c)
          ∧ (d "config_CG_Lin709.ocio" = none → dF "config.ocio" = d "config.ocio") := by
  rw [backupStep_success env info d s tr hrm hmv]
  cases hcm : s.cm with
  | none =>
    obtain ⟨h1, h2, h3, h4, h5⟩ := copytreeStep_all env info d s (tr ++ []) hcp hrmc hcpc
    refine ⟨h1, h2, ?_, ?_, h5⟩
    · rw [h3]; simp
    · rw [h4]
  | some c0 =>
    cases hbk : s.backup.isSome <;> simp only [hbk, if_true, if_false, Bool.false_eq_true]
    · have hbo : bkOps s = [Op.moveCmToBackup] := by simp [bkOps, hbk]
      rw [hbo]
      obtain ⟨h1, h2, h3, h4, h5⟩ := copytreeStep_all env info d (applyOp s Op.moveCmToBackup)
        (tr ++ [Op.moveCmToBackup]) hcp hrmc hcpc
      refine ⟨h1, h2, ?_, ?_, h5⟩
      · rw [h3]; simp [List.append_assoc]
      · rw [h4]; simp [applyOp, hcm]
    · have hbo : bkOps s = [Op.rmtreeBackup, Op.moveCmToBackup] := by simp [bkOps, hbk]
      rw [hbo]
      obtain ⟨h1, h2, h3, h4, h5⟩ := copytreeStep_all env info d
        (applyOp (applyOp s Op.rmtreeBackup) Op.moveCmToBackup)
        (tr ++ [Op.rmtreeBackup, Op.moveCmToBackup]) hcp hrmc hcpc
      refine ⟨h1, h2, ?_, ?_, h5⟩
      · rw [h3]; simp [List.append_assoc]
      · rw [h4]; simp [applyOp, hcm]

theorem parentStep_all (env : Env) (info : ReleaseInfo) (d : Dirc) (s : FS) (tr : List Op)
    (hmk : env.makedirsErr = none) (hrm : env.rmtreeBackupErr = none)
    (hmv : env.moveErr = none) (hcp : env.copytreeErr = none)
    (hrmc : env.removeConfigErr = none) (hcpc : env.copyConfigErr = none) :
    (parentStep env info d s tr).success = true
      ∧ (parentStep env info d s tr).errorMsg = ""
      ∧ (parentStep env info d s tr).trace
          = tr ++ (mkParentOps s
              ++ ((match s.cm with | none => [] | some _ => bkOps s)
                  ++ ([Op.updateProgress (9/10) "Installing new config...", Op.copytreeToCm d]
                      ++ (cfgOps d ++ vfOps env info))))
      ∧ (parentStep env info d s tr).fs.backup
          = (match s.cm with | none => s.backup | some _ => s.cm)
      ∧ ∃ dF, (parentStep env info d s tr).fs.cm = some dF
          ∧ dF "config_CG_Lin709.ocio" = d "config_CG_Lin709.ocio"
          ∧ (∀ c, d "config_CG_Lin709.ocio" = some c → dF "config.ocio" = some c)
          ∧ (d "config_CG_Lin709.ocio" = none → dF "config.ocio" = d "config.ocio") := by
  rw [parentStep_success env info d s tr hmk]
  cases hpe : s.parentExists <;> simp only [hpe, if_true, if_false, Bool.false_eq_true]
  · obtain ⟨h1, h2, h3, h4, h5⟩ := backupStep_all env info d (applyOp s Op.makedirs)
      (tr ++ mkParentOps s) hrm hmv hcp hrmc hcpc
    have heq : (applyOp s Op.makedirs).cm = s.cm := by simp [applyOp]
    have heq2 : (applyOp s Op.makedirs).backup = s.backup := by simp [applyOp]
    have heq3 : bkOps (applyOp s Op.makedirs) = bkOps s := by simp [applyOp, bkOps]
    rw [heq, heq3] at h3
    rw [heq, heq2] at h4
    refine ⟨h1, h2, ?_, h4, h5⟩
    · rw [h3]; simp [List.append_assoc]
  · obtain ⟨h1, h2, h3, h4, h5⟩ := backupStep_all env info d s (tr ++ mkParentOps s)
      hrm hmv hcp hrmc hcpc
    refine ⟨h1, h2, ?_, h4, h5⟩
    · rw [h3]; simp [List.append_assoc]

theorem download_and_install_parts (env : Env) (s0 : FS) :
    (download_and_install env s0).success = (runBody env s0).success
      ∧ (download_and_install env s0).errorMsg = (runBody env s0).errorMsg
      ∧ (download_and_install env s0).fs.cm = (runBody env s0).fs.cm
      ∧ (download_and_install env s0).fs.backup = (runBody env s0).fs.backup
      ∧ ∃ ext, (download_and_install env s0).trace = (runBody env s0).trace ++ ext := by
  simp only [download_and_install]
  split
  · split
    · exact ⟨rfl, rfl, rfl, rfl, [], by simp⟩
    · exact ⟨rfl, rfl, by simp [applyOp], by simp [applyOp], [Op.rmtreeTemp], rfl⟩
  · exact ⟨rfl, rfl, rfl, rfl, [], by simp⟩

theorem run_success_all (env : Env) (s0 : FS) (info : ReleaseInfo) (d : Dirc) (rest : List Dirc)
    (h : EnvOk env info) (hent : env.entries = d :: rest) :
    (download_and_install env s0).success = true
      ∧ (download_and_install env s0).errorMsg = ""
      ∧ (∃ tail, (download_and_install env s0).trace
          = preTrace env info ++ (mkParentOps s0
              ++ ((match s0.cm with | none => [] | some _ => bkOps s0)
                  ++ ([Op.updateProgress (9/10) "Installing new config...", Op.copytreeToCm d]
                      ++ (cfgOps d ++ (vfOps env info ++ tail))))))
      ∧ (download_and_install env s0).fs.backup
          = (match s0.cm with | none => s0.backup | some _ => s0.cm)
      ∧ ∃ dF, (download_and_install env s0).fs.cm = some dF
          ∧ dF "config_CG_Lin709.ocio" = d "config_CG_Lin709.ocio"
          ∧ (∀ c, d "config_CG_Lin709.ocio" = some c → dF "config.ocio" = some c)
          ∧ (d "config_CG_Lin709.ocio" = none → dF "config.ocio" = d "config.ocio") := by
  obtain ⟨hp1, hp2, hp3, hp4, ext, hp5⟩ := download_and_install_parts env s0
  have hrb := runBody_success_eq env s0 info d rest h hent
  obtain ⟨h1, h2, h3, h4, h5⟩ := parentStep_all env info d (applyOp s0 Op.mkdtemp)
    (preTrace env info) h.hmk h.hrm h.hmv h.hcp h.hrmc h.hcpc
  have hmkeq : mkParentOps (applyOp s0 Op.mkdtemp) = mkParentOps s0 := by
    simp [applyOp, mkParentOps]
  have hcmeq : (applyOp s0 Op.mkdtemp).cm = s0.cm := by simp [applyOp]
  have hbkeq : (applyOp s0 Op.mkdtemp).backup = s0.backup := by simp [applyOp]
  have hboeq : bkOps (applyOp s0 Op.mkdtemp) = bkOps s0 := by simp [applyOp, bkOps]
  rw [hmkeq, hcmeq, hboeq] at h3
  rw [hcmeq, hbkeq] at h4
  refine ⟨by rw [hp1, hrb, h1], by rw [hp2, hrb, h2], ?_, by rw [hp4, hrb, h4], ?_⟩
  · refine ⟨ext, ?_⟩
    rw [hp5, hrb, h3]
    simp [List.append_assoc]
  · obtain ⟨dF, hd1, hd2⟩ := h5
    exact ⟨dF, by rw [hp3, hrb]; exact hd1, hd2⟩

/-! ## Claim C5 -/

/-- C5: after a successful install, if `config_CG_Lin709.ocio` exists
directly under the install target then a sibling `config.ocio` exists with
identical contents (any pre-existing `config.ocio` having been overwritten);
if it is absent, the normalization step creates no `config.ocio` and leaves
the one delivered by the archive, if any, untouched. -/
theorem c5_config_normalization (env : Env) (s0 : FS) (info : ReleaseInfo) (d : Dirc)
    (rest : List Dirc) (h : EnvOk env info) (hent : env.entries = d :: rest) :
    (download_and_install env s0).success = true ∧
    ∃ dF, (download_and_install env s0).fs.cm = some dF
      ∧ dF "config_CG_Lin709.ocio" = d "config_CG_Lin709.ocio"
      ∧ (∀ c, dF "config_CG_Lin709.ocio" = some c → dF "config.ocio" = some c)
      ∧ (dF "config_CG_Lin709.ocio" = none → dF "config.ocio" = d "config.ocio") := by
  obtain ⟨h1, -, -, -, dF, hd1, hd2, hd3, hd4⟩ := run_success_all env s0 info d rest h hent
  exact ⟨h1, dF, hd1, hd2,
    fun c hc => hd3 c (hd2.symm.trans hc),
    fun hc => hd4 (hd2.symm.trans hc)⟩

theorem c5_config_normalization_witness :
    (EnvOk envHappy infoHappy ∧ envHappy.entries = dConfig :: []) ∧
    ((download_and_install envHappy fs0).success = true ∧
     ∃ dF, (download_and_install envHappy fs0).fs.cm = some dF
       ∧ dF "config_CG_Lin709.ocio" = dConfig "config_CG_Lin709.ocio"
       ∧ (∀ c, dF "config_CG_Lin709.ocio" = some c → dF "config.ocio" = some c)
       ∧ (dF "config_CG_Lin709.ocio" = none → dF "config.ocio" = dConfig "config.ocio")) :=
  ⟨⟨⟨by decide, rfl, by decide, rfl, rfl, rfl, rfl, rfl, rfl, rfl, rfl⟩, rfl⟩,
   c5_config_normalization envHappy fs0 infoHappy dConfig []
     ⟨by decide, rfl, by decide, rfl, rfl, rfl, rfl, rfl, rfl, rfl, rfl⟩ rfl⟩

/-! ## Claim C10 -/

/-- C10: with every external outcome succeeding, the run fails with the
archive error "No files found in downloaded archive" exactly when the
extraction listing is empty; when the listing is nonempty the installer uses
its first entry as the source tree and the whole run is identical to a run
whose listing contains only that first entry — the remaining entries are
silently ignored. -/
theorem c10_first_entry (env : Env) (s0 : FS) (info : ReleaseInfo) (h : EnvOk env info) :
    (env.entries = [] ↔
      ((download_and_install env s0).success = false ∧
       (download_and_install env s0).errorMsg = "No files found in downloaded archive")) ∧
    (∀ d rest, env.entries = d :: rest →
      download_and_install env s0 = download_and_install { env with entries := [d] } s0) := by
  constructor
  · constructor
    · intro hent
      have h1 : (download_with_progress (env.download info.zipball_url)).1 = (true, "") := by
        simp [download_with_progress, h.hdl]
      have hrb : runBody env s0 = ⟨applyOp s0 Op.mkdtemp,
          ([Op.updateProgress 0 "Checking latest release...", Op.mkdtemp,
            Op.updateProgress (1/20) ("Downloading " ++ info.tag_name ++ "...")]
            ++ (download_with_progress (env.download info.zipball_url)).2.map
                (fun u => Op.updateProgress u.1 u.2))
            ++ [Op.updateProgress (7/10) "Extracting files..."],
          true, false, "No files found in downloaded archive"⟩ := by
        simp only [runBody, h.hinfo]
        rw [if_neg h.hrepo, if_neg h.hzip, h1]
        simp [h.hzipok, hent]
      obtain ⟨hp1, hp2, -, -, -, -⟩ := download_and_install_parts env s0
      exact ⟨by rw [hp1, hrb], by rw [hp2, hrb]⟩
    · rintro ⟨hsucc, -⟩
      by_contra hne
      obtain ⟨d, rest, hent⟩ : ∃ d rest, env.entries = d :: rest := by
        cases henv : env.entries with
        | nil => exact absurd henv hne
        | cons d rest => exact ⟨d, rest, rfl⟩
      obtain ⟨h1, -, -, -, -⟩ := run_success_all env s0 info d rest h hent
      rw [hsucc] at h1
      exact Bool.noConfusion h1
  · intro d rest hent
    have h' : EnvOk { env with entries := [d] } info :=
      ⟨h.hrepo, h.hinfo, h.hzip, h.hdl, h.hzipok, h.hmk, h.hrm, h.hmv, h.hcp, h.hrmc, h.hcpc⟩
    have hb : runBody env s0 = runBody { env with entries := [d] } s0 := by
      rw [runBody_success_eq env s0 info d rest h hent,
          runBody_success_eq { env with entries := [d] } s0 info d [] h' rfl]
      rfl
    simp only [download_and_install, hb]

theorem c10_first_entry_witness :
    EnvOk envHappy infoHappy ∧
    ((envHappy.entries = [] ↔
       ((download_and_install envHappy fs0).success = false ∧
        (download_and_install envHappy fs0).errorMsg = "No files found in downloaded archive")) ∧
     (∀ d rest, envHappy.entries = d :: rest →
       download_and_install envHappy fs0
         = download_and_install { envHappy with entries := [d] } fs0)) :=
  ⟨⟨by decide, rfl, by decide, rfl, rfl, rfl, rfl, rfl, rfl, rfl, rfl⟩,
   c10_first_entry envHappy fs0 infoHappy
     ⟨by decide, rfl, by decide, rfl, rfl, rfl, rfl, rfl, rfl, rfl, rfl⟩⟩

theorem foldl_updates_id (s : FS) (l : List (ℚ × String)) :
    List.foldl applyOp s (l.map (fun u => Op.updateProgress u.1 u.2)) = s := by
  induction l generalizing s with
  | nil => rfl
  | cons u rest ih => simpa [applyOp] using ih s

theorem preTrace_no_rm_mv (env : Env) (info : ReleaseInfo) :
    Op.rmtreeBackup ∉ preTrace env info ∧ Op.moveCmToBackup ∉ preTrace env info := by
  constructor <;>
  · intro hmem
    simp only [preTrace, List.mem_append, List.mem_cons, List.not_mem_nil, or_false,
      List.mem_map] at hmem
    rcases hmem with ((h | h | h) | ⟨u, -, h⟩) | (h | h) <;> exact Op.noConfusion h

theorem bkOps_eq (s : FS) :
    bkOps s = (if s.backup.isSome then [Op.rmtreeBackup] else []) ++ [Op.moveCmToBackup] := by
  unfold bkOps
  cases s.backup.isSome <;> simp

theorem mkParentOps_no_rm_mv (s : FS) :
    Op.rmtreeBackup ∉ mkParentOps s ∧ Op.moveCmToBackup ∉ mkParentOps s := by
  unfold mkParentOps
  cases s.parentExists <;> simp

/-! ## Claim C3 -/

/-- C3: at most one backup generation is ever retained.  Within a run whose
install target exists at backup time, the trace shows the installer removing
any prior backup and then — with nothing in between — moving (not copying)
the target to the fixed backup path: replaying the logged operations up to
and including the move leaves the install target absent and the backup slot
holding exactly the prior target's contents.  After the run the backup holds
the prior target; a second successful run removes that first backup before
moving the first run's installed tree into the (single) backup slot. -/
theorem c3_single_backup_generation
    (env1 env2 : Env) (info1 info2 : ReleaseInfo) (d1 d2 : Dirc) (rest1 rest2 : List Dirc)
    (s0 : FS) (c0 : Dirc)
    (h1 : EnvOk env1 info1) (hent1 : env1.entries = d1 :: rest1)
    (h2 : EnvOk env2 info2) (hent2 : env2.entries = d2 :: rest2)
    (hcm : s0.cm = some c0) :
    (∃ t1 t2, (download_and_install env1 s0).trace
        = t1 ++ ((if s0.backup.isSome then [Op.rmtreeBackup] else [])
            ++ Op.moveCmToBackup :: t2)
      ∧ Op.rmtreeBackup ∉ t1 ∧ Op.moveCmToBackup ∉ t1
      ∧ (List.foldl applyOp s0 (t1 ++ ((if s0.backup.isSome then [Op.rmtreeBackup] else [])
            ++ [Op.moveCmToBackup]))).cm = none
      ∧ (List.foldl applyOp s0 (t1 ++ ((if s0.backup.isSome then [Op.rmtreeBackup] else [])
            ++ [Op.moveCmToBackup]))).backup = some c0)
    ∧ (download_and_install env1 s0).fs.backup = some c0
    ∧ (download_and_install env2 (download_and_install env1 s0).fs).fs.backup
        = (download_and_install env1 s0).fs.cm
    ∧ (∃ t1 t2, (download_and_install env2 (download_and_install env1 s0).fs).trace
        = t1 ++ (Op.rmtreeBackup :: Op.moveCmToBackup :: t2)) := by
  obtain ⟨-, -, ⟨tail1, htr1⟩, hbk1, dF, hcm1, -, -, -⟩ :=
    run_success_all env1 s0 info1 d1 rest1 h1 hent1
  rw [hcm] at htr1 hbk1
  refine ⟨?_, ?_, ?_, ?_⟩
  · refine ⟨preTrace env1 info1 ++ mkParentOps s0,
      [Op.updateProgress (9/10) "Installing new config...", Op.copytreeToCm d1]
        ++ (cfgOps d1 ++ (vfOps env1 info1 ++ tail1)), ?_, ?_, ?_, ?_, ?_⟩
    · rw [htr1, bkOps_eq]
      simp [List.append_assoc]
    · intro hmemb
      rcases List.mem_append.mp hmemb with hmem | hmem
      · exact (preTrace_no_rm_mv env1 info1).1 hmem
      · exact (mkParentOps_no_rm_mv s0).1 hmem
    · intro hmemb
      rcases List.mem_append.mp hmemb with hmem | hmem
      · exact (preTrace_no_rm_mv env1 info1).2 hmem
      · exact (mkParentOps_no_rm_mv s0).2 hmem
    · simp only [List.foldl_append, preTrace, foldl_updates_id, mkParentOps]
      cases s0.parentExists <;> cases s0.backup.isSome <;>
        simp [applyOp, hcm]
    · simp only [List.foldl_append, preTrace, foldl_updates_id, mkParentOps]
      cases s0.parentExists <;> cases s0.backup.isSome <;>
        simp [applyOp, hcm]
  · rw [hbk1]
  · obtain ⟨-, -, -, hbk2, -⟩ := run_success_all env2 (download_and_install env1 s0).fs
      info2 d2 rest2 h2 hent2
    rw [hbk2, hcm1]
  · obtain ⟨-, -, ⟨tail2, htr2⟩, -, -⟩ := run_success_all env2 (download_and_install env1 s0).fs
      info2 d2 rest2 h2 hent2
    rw [hcm1] at htr2
    have hb2 : ((download_and_install env1 s0).fs).backup.isSome = true := by
      rw [hbk1]; rfl
    have hbo : bkOps ((download_and_install env1 s0).fs)
        = [Op.rmtreeBackup, Op.moveCmToBackup] := by
      simp [bkOps, hb2]
    refine ⟨preTrace env2 info2 ++ mkParentOps (download_and_install env1 s0).fs,
      [Op.updateProgress (9/10) "Installing new config...", Op.copytreeToCm d2]
        ++ (cfgOps d2 ++ (vfOps env2 info2 ++ tail2)), ?_⟩
    rw [htr2, hbo]
    simp [List.append_assoc]

theorem hEnvOkHappy : EnvOk envHappy infoHappy :=
  ⟨by decide, rfl, by decide, rfl, rfl, rfl, rfl, rfl, rfl, rfl, rfl⟩

theorem c3_single_backup_generation_witness :
    (EnvOk envHappy infoHappy ∧ envHappy.entries = dConfig :: [] ∧ fsPrior.cm = some dConfig) ∧
    ((∃ t1 t2, (download_and_install envHappy fsPrior).trace
        = t1 ++ ((if fsPrior.backup.isSome then [Op.rmtreeBackup] else [])
            ++ Op.moveCmToBackup :: t2)
      ∧ Op.rmtreeBackup ∉ t1 ∧ Op.moveCmToBackup ∉ t1
      ∧ (List.foldl applyOp fsPrior (t1 ++ ((if fsPrior.backup.isSome then [Op.rmtreeBackup] else [])
            ++ [Op.moveCmToBackup]))).cm = none
      ∧ (List.foldl applyOp fsPrior (t1 ++ ((if fsPrior.backup.isSome then [Op.rmtreeBackup] else [])
            ++ [Op.moveCmToBackup]))).backup = some dConfig)
    ∧ (download_and_install envHappy fsPrior).fs.backup = some dConfig
    ∧ (download_and_install envHappy (download_and_install envHappy fsPrior).fs).fs.backup
        = (download_and_install envHappy fsPrior).fs.cm
    ∧ (∃ t1 t2, (download_and_install envHappy
          (download_and_install envHappy fsPrior).fs).trace
        = t1 ++ (Op.rmtreeBackup :: Op.moveCmToBackup :: t2))) :=
  ⟨⟨hEnvOkHappy, rfl, rfl⟩,
   c3_single_backup_generation envHappy envHappy infoHappy infoHappy dConfig dConfig [] []
     fsPrior dConfig hEnvOkHappy rfl hEnvOkHappy rfl rfl⟩
